import Mathlib

/-!
Shallow embedding of the `alethe-proof-checker` sources
(`src/checker/rules/linear_arithmetic.rs` and `src/parser/mod.rs`),
together with proofs about them.

The AST (`Term`, `Operator`, sorts, the term pool) and the scoped symbol
table live in modules (`ast`, `utils`) that are not part of the given
sources; those parts are modelled from the spec (§3, §4.1–§4.3), as marked
on each such definition.  In particular the term pool's central invariant —
two terms are equal iff their handles are equal — lets us represent a
`TermRef` handle by the (structurally compared) term itself, so `add_term`
is the identity and `==` on handles is structural equality.

Rust `Option`-returning functions that can also panic (a `BigRational`
division by zero, an `unreachable!()`, an out-of-bounds index) are embedded
with the three-valued result type `RRes`: `.fatal` is a panic, `.retNone`
is `None`, `.ok a` is `Some(a)`.
-/

set_option maxHeartbeats 2000000

/-- Modelled from the spec (§3): the closed set of operators. -/
inductive Operator where
  | not | implies | or | and | xor | eq | distinct | ite
  | add | sub | mult | intDiv | realDiv
  | lessThan | greaterThan | lessEq | greaterEq
  | select | store
deriving DecidableEq

/-- Modelled from the spec (§3): quantifier kinds. -/
inductive Quantifier where
  | forallQ | existsQ
deriving DecidableEq

mutual
/-- Modelled from the spec (§3): sorts.  `func`'s last element is the return
sort; `atom` is a user-declared sort. -/
inductive SmtSort where
  | bool | int | real | string
  | array (x y : SmtSort)
  | func (sorts : SmtSortList)
  | atom (name : String) (args : SmtSortList)
/-- A sequence of sorts (spec §3 `sequence of SortRef`). -/
inductive SmtSortList where
  | nil
  | cons (head : SmtSort) (tail : SmtSortList)
end
deriving instance DecidableEq for SmtSort, SmtSortList

def SmtSortList.toList : SmtSortList → List SmtSort
  | .nil => []
  | .cons a rest => a :: rest.toList

def SmtSortList.ofList : List SmtSort → SmtSortList
  | [] => .nil
  | a :: rest => .cons a (SmtSortList.ofList rest)

def SmtSortList.length : SmtSortList → Nat
  | .nil => 0
  | .cons _ rest => rest.length + 1

/-- Last element of a sort list, with a default (used for a `Function`
sort's return sort). -/
def SmtSortList.getLastD : SmtSortList → SmtSort → SmtSort
  | .nil, d => d
  | .cons a .nil, _ => a
  | .cons _ (.cons b rest), d => SmtSortList.getLastD (.cons b rest) d

/-- Modelled from the spec (§3): terminals.  Identifiers are simple
symbols (the only kind the spec requires), so they are plain strings. -/
inductive Terminal where
  | int (i : ℤ)
  | real (r : ℚ)
  | str (s : String)
  | var (name : String) (sort : SmtSort)
deriving DecidableEq

mutual
/-- Modelled from the spec (§3): terms.  A `TermRef` handle is represented
by the term itself (hash-consing makes handle equality structural
equality). -/
inductive Term where
  | terminal (t : Terminal)
  | sortTerm (s : SmtSort)
  | op (o : Operator) (args : TermList)
  | app (f : Term) (args : TermList)
  | quant (q : Quantifier) (bindings : List (String × SmtSort)) (body : Term)
  | choice (v : String × SmtSort) (body : Term)
  | lett (bindings : LetBindings) (body : Term)
/-- A sequence of terms (the `Vec<Rc<Term>>` arguments of `Op`/`App`). -/
inductive TermList where
  | nil
  | cons (head : Term) (tail : TermList)
/-- `let` bindings: names bound to value terms. -/
inductive LetBindings where
  | nil
  | cons (name : String) (value : Term) (tail : LetBindings)
end
deriving instance DecidableEq for Term, TermList, LetBindings

def TermList.toList : TermList → List Term
  | .nil => []
  | .cons a rest => a :: rest.toList

def TermList.ofList : List Term → TermList
  | [] => .nil
  | a :: rest => .cons a (TermList.ofList rest)

def TermList.length : TermList → Nat
  | .nil => 0
  | .cons _ rest => rest.length + 1

/-- Modelled from the spec (§4.2): `Term::sort`, total on well-formed
terms.  On ill-formed terms (which `make_op` can never produce) it returns
the junk value `.bool`. -/
def Term.sortOf : Term → SmtSort
  | .terminal (.int _) => .int
  | .terminal (.real _) => .real
  | .terminal (.str _) => .string
  | .terminal (.var _ s) => s
  | .sortTerm _ => .bool
  | .op o args =>
    match o, args with
    | .ite, .cons _ (.cons b _) => b.sortOf
    | .add, .cons a _ => a.sortOf
    | .sub, .cons a _ => a.sortOf
    | .mult, .cons a _ => a.sortOf
    | .intDiv, .cons a _ => a.sortOf
    | .realDiv, .cons a _ => a.sortOf
    | .select, .cons a _ =>
      (match a.sortOf with
       | .array _ y => y
       | _ => .bool)
    | .store, .cons a _ => a.sortOf
    | _, _ => .bool
  | .app f _ =>
    (match f.sortOf with
     | .func sorts => sorts.getLastD .bool
     | _ => .bool)
  | .quant _ _ _ => .bool
  | .choice v _ => v.2
  | .lett _ body => body.sortOf

/-- Three-valued result of a Rust `Option`-returning function that may
also panic: `.fatal` is a panic, `.retNone` is `None`, `.ok` is `Some`. -/
inductive RRes (α : Type) where
  | fatal
  | retNone
  | ok (a : α)
deriving DecidableEq

/-- Modelled from the spec (§4.5): `Term::try_as_ratio`, which recognizes
terminal integer and rational literals. -/
def Term.tryAsRatio : Term → Option ℚ
  | .terminal (.int i) => some (i : ℚ)
  | .terminal (.real r) => some r
  | _ => none

/-- `simple_operation_to_rational` (linear_arithmetic.rs:18-27).  The
division `n / d` is `BigRational` division, which panics when `d` is
zero; that panic is the `.fatal` case. -/
def simpleOperationToRational : Term → RRes ℚ
  | .op .realDiv (.cons n (.cons d .nil)) =>
    (match simpleOperationToRational n with
     | .fatal => .fatal
     | .retNone => .retNone
     | .ok vn =>
       match simpleOperationToRational d with
       | .fatal => .fatal
       | .retNone => .retNone
       | .ok vd => if vd = 0 then .fatal else .ok (vn / vd))
  | .op .intDiv (.cons n (.cons d .nil)) =>
    (match simpleOperationToRational n with
     | .fatal => .fatal
     | .retNone => .retNone
     | .ok vn =>
       match simpleOperationToRational d with
       | .fatal => .fatal
       | .retNone => .retNone
       | .ok vd => if vd = 0 then .fatal else .ok (vn / vd))
  | .op .sub (.cons t .nil) =>
    (match simpleOperationToRational t with
     | .fatal => .fatal
     | .retNone => .retNone
     | .ok v => .ok (-v))
  | t =>
    (match t.tryAsRatio with
     | some r => .ok r
     | none => .retNone)

mutual
/-- `flatten_sum` (linear_arithmetic.rs:33-56).  `none` models the panic
of `args[0]` when an (ill-formed) n-ary `-` has no arguments. -/
def flattenSum : Term → Option (List (Term × Bool))
  | .op .add args => flattenSumArgs args
  | .op .sub (.cons t .nil) =>
    (flattenSum t).map (fun l => l.map (fun p => (p.1, !p.2)))
  | .op .sub .nil => none
  | .op .sub (.cons a rest) => do
    let l1 ← flattenSum a
    let l2 ← flattenSumArgs rest
    pure (l1 ++ l2.map (fun p => (p.1, !p.2)))
  | t => some [(t, true)]
/-- `flat_map` of `flatten_sum` over an argument list. -/
def flattenSumArgs : TermList → Option (List (Term × Bool))
  | .nil => some []
  | .cons a rest => do
    let l1 ← flattenSum a
    let l2 ← flattenSumArgs rest
    pure (l1 ++ l2)
end

/-- The inner `negate_operator` (linear_arithmetic.rs:67-75). -/
def negateOperator : Operator → Option Operator
  | .lessThan => some .greaterEq
  | .greaterThan => some .lessEq
  | .lessEq => some .greaterThan
  | .greaterEq => some .lessThan
  | _ => none

/-- `negate_disequality` (linear_arithmetic.rs:63-85). -/
def negateDisequality : Term → Option (Operator × TermList)
  | .op .not (.cons (.op o args) .nil) =>
    if o = .greaterEq ∨ o = .lessEq ∨ o = .greaterThan ∨ o = .lessThan ∨ o = .eq
    then some (o, args) else none
  | .op o args => (negateOperator o).map (fun o' => (o', args))
  | _ => none

/-- `LinearComb` (linear_arithmetic.rs:90): a map from non-constant terms
to coefficients (represented as an association list without duplicate
keys) plus a constant.  `coeffs` is field `.0`, `const` is field `.1`. -/
structure LinearComb where
  coeffs : List (Term × ℚ)
  const : ℚ
deriving DecidableEq

/-- `LinearComb::new` (linear_arithmetic.rs:93-95). -/
def LinearComb.new : LinearComb := ⟨[], 0⟩

/-- `LinearComb::insert` (linear_arithmetic.rs:127-143) on the underlying
map: an occupied entry has the value added (and is removed if the sum is
zero); a vacant entry receives the value unchanged. -/
def insertPair (m : List (Term × ℚ)) (key : Term) (value : ℚ) : List (Term × ℚ) :=
  match m with
  | [] => [(key, value)]
  | (k, v) :: rest =>
    if k = key then
      let newValue := v + value
      if newValue = 0 then rest else (k, newValue) :: rest
    else (k, v) :: insertPair rest key value

def LinearComb.insert (lc : LinearComb) (key : Term) (value : ℚ) : LinearComb :=
  ⟨insertPair lc.coeffs key value, lc.const⟩

/-- `LinearComb::add` (linear_arithmetic.rs:145-151). -/
def LinearComb.add (lc other : LinearComb) : LinearComb :=
  ⟨other.coeffs.foldl (fun m p => insertPair m p.1 p.2) lc.coeffs,
   lc.const + other.const⟩

/-- `LinearComb::mul` (linear_arithmetic.rs:153-158): multiplies every
coefficient and the constant by the scalar (zero coefficients are *not*
removed here). -/
def LinearComb.mul (lc : LinearComb) (scalar : ℚ) : LinearComb :=
  ⟨lc.coeffs.map (fun p => (p.1, p.2 * scalar)), lc.const * scalar⟩

/-- `LinearComb::neg` (linear_arithmetic.rs:160-164). -/
def LinearComb.neg (lc : LinearComb) : LinearComb := lc.mul (-1)

/-- `LinearComb::sub` (linear_arithmetic.rs:166-169). -/
def LinearComb.sub (lc other : LinearComb) : LinearComb := lc.add other.neg

/-- The minimum of the absolute values of the coefficients; `1` when the
map is empty (`.min().unwrap_or_else(BigRational::one)`). -/
def minAbsCoeff (l : List (Term × ℚ)) : ℚ :=
  match l.map (fun p => |p.2|) with
  | [] => 1
  | x :: xs => xs.foldl min x

/-- `strengthen` (linear_arithmetic.rs:172-218).  The `<`/`≤` arms are
`unreachable!()`, i.e. a panic. -/
def strengthen (op : Operator) (d : LinearComb) (a : ℚ) : RRes (Operator × LinearComb) :=
  let isInt : Bool := (d.const * a).den = 1
  match op with
  | .greaterEq =>
    if isInt then .ok (op, d)
    else .ok (.greaterEq, {d with const := (Rat.floor d.const : ℚ) + 1})
  | .greaterThan =>
    if isInt then
      .ok (.greaterEq, {d with const := (Rat.floor d.const : ℚ) + minAbsCoeff d.coeffs})
    else .ok (.greaterEq, {d with const := (Rat.floor d.const : ℚ) + 1})
  | .lessThan => .fatal
  | .lessEq => .fatal
  | _ => .ok (op, d)

/-- Modelled from the spec (§3): proof arguments. -/
inductive ProofArg where
  | term (t : Term)
  | assign (name : String) (value : Term)
deriving DecidableEq

/-- `LinearComb::from_term`'s loop body (linear_arithmetic.rs:100-123),
iterating over the flattened sum with the accumulator under
construction. -/
def LinearComb.fromTermGo (acc : LinearComb) : List (Term × Bool) → RRes LinearComb
  | [] => .ok acc
  | (arg, polarity) :: rest =>
    let pc : ℚ := if polarity then 1 else -1
    match arg with
    | .op .mult (.cons a (.cons b .nil)) =>
      (match simpleOperationToRational a, simpleOperationToRational b with
       | .fatal, _ => .fatal
       | _, .fatal => .fatal
       | .retNone, .retNone => LinearComb.fromTermGo (acc.insert arg (1 * pc)) rest
       | .retNone, .ok r => LinearComb.fromTermGo (acc.insert a (r * pc)) rest
       | .ok r, .retNone => LinearComb.fromTermGo (acc.insert b (r * pc)) rest
       | .ok _, .ok _ => .retNone)
    | _ =>
      match simpleOperationToRational arg with
      | .fatal => .fatal
      | .ok r => LinearComb.fromTermGo {acc with const := acc.const + r * pc} rest
      | .retNone => LinearComb.fromTermGo (acc.insert arg pc) rest

/-- `LinearComb::from_term` (linear_arithmetic.rs:98-125). -/
def LinearComb.fromTerm (t : Term) : RRes LinearComb :=
  match flattenSum t with
  | none => .fatal
  | some l => LinearComb.fromTermGo ⟨[], 0⟩ l

/-- The per-literal pipeline of `la_generic` (linear_arithmetic.rs:226-264):
negate the literal, linearize both sides, move everything to one side,
orient to `>`/`≥`, strengthen, and scale by the coefficient. -/
def processLiteral (phi : Term) (arg : ProofArg) : RRes (Operator × LinearComb) :=
  match arg with
  | .assign _ _ => .retNone
  | .term argT =>
    match simpleOperationToRational argT with
    | .fatal => .fatal
    | .retNone => .retNone
    | .ok a =>
      match negateDisequality phi with
      | none => .retNone
      | some (op, args) =>
        match args with
        | .cons s1 (.cons s2 .nil) =>
          (match LinearComb.fromTerm s1 with
           | .fatal => .fatal
           | .retNone => .retNone
           | .ok c1 =>
             match LinearComb.fromTerm s2 with
             | .fatal => .fatal
             | .retNone => .retNone
             | .ok c2 =>
               let d0 := c1.sub c2
               let d1 : LinearComb := {d0 with const := -d0.const}
               let od :=
                 if op = Operator.lessThan then (Operator.greaterThan, d1.neg)
                 else if op = Operator.lessEq then (Operator.greaterEq, d1.neg)
                 else (op, d1)
               match strengthen od.1 od.2 a with
               | .fatal => .fatal
               | .retNone => .retNone
               | .ok (op3, d3) =>
                 let a2 := if op3 = Operator.eq then a else |a|
                 .ok (op3, d3.mul a2))
        | _ => .retNone

/-- The `try_fold` of `la_generic` (linear_arithmetic.rs:266-278): sum the
linear combinations and combine the operators (`≥` always wins; `=`
combined with `>` gives `>`; otherwise the accumulator is kept). -/
def laGenericFold : List (Term × ProofArg) → Operator × LinearComb → RRes (Operator × LinearComb)
  | [], acc => .ok acc
  | (phi, a) :: rest, (accOp, acc) =>
    match processLiteral phi a with
    | .fatal => .fatal
    | .retNone => .retNone
    | .ok (op, diseq) =>
      let newAcc := acc.add diseq
      let newOp :=
        match accOp, op with
        | _, Operator.greaterEq => Operator.greaterEq
        | Operator.eq, Operator.greaterThan => Operator.greaterThan
        | _, _ => accOp
      laGenericFold rest (newOp, newAcc)

/-- `matches!(op, LessThan | LessEq)` in `la_generic`'s final test. -/
def opIsLess : Operator → Bool
  | .lessThan => true
  | .lessEq => true
  | _ => false

/-- `matches!(op, LessEq | GreaterEq | Equals)` in `la_generic`'s final test. -/
def opIsNonStrict : Operator → Bool
  | .lessEq => true
  | .greaterEq => true
  | .eq => true
  | _ => false

/-- `matches!(op, GreaterThan | GreaterEq)` in `la_generic`'s final test. -/
def opIsGreater : Operator → Bool
  | .greaterThan => true
  | .greaterEq => true
  | _ => false

/-- The final test of `la_generic` (linear_arithmetic.rs:285-296): whether
the operator encompasses the actual ordering of 0 and the right side. -/
def isDisequalityTrue (op : Operator) (rightSide : ℚ) : Bool :=
  match cmp (0 : ℚ) rightSide with
  | .lt => opIsLess op
  | .eq => opIsNonStrict op
  | .gt => opIsGreater op

/-- `la_generic` (linear_arithmetic.rs:220-300). -/
def laGeneric (conclusion : List Term) (args : List ProofArg) : RRes Unit :=
  if conclusion.length = args.length then
    match laGenericFold (conclusion.zip args) (Operator.eq, LinearComb.new) with
    | .fatal => .fatal
    | .retNone => .retNone
    | .ok (op, lc) =>
      if lc.coeffs = [] then
        if isDisequalityTrue op lc.const then .retNone else .ok ()
      else .retNone
  else .retNone

/-- `la_rw_eq` (linear_arithmetic.rs:7-14): the clause must be a single
literal `(= (= t u) (and (<= t u) (<= u t)))` with consistent handles. -/
def laRwEq (conclusion : List Term) : Option Unit :=
  if conclusion.length = 1 then
    match conclusion with
    | [.op .eq (.cons (.op .eq (.cons t1 (.cons u1 .nil)))
        (.cons (.op .and (.cons (.op .lessEq (.cons t2 (.cons u2 .nil)))
          (.cons (.op .lessEq (.cons u3 (.cons t3 .nil))) .nil))) .nil))] =>
      if t1 = t2 ∧ t2 = t3 ∧ u1 = u2 ∧ u2 = u3 then some () else none
    | _ => none
  else none

/-! ### Spec-side definitions and concrete scenario terms -/

/-- Spec-side restatement (from the spec's words in claim C1) of when the
combined disequality is true: `c = compare(0, right)` is Less and the
operator is `<` or `≤`, or Equal and the operator is `≤`, `≥` or `=`, or
Greater and the operator is `>` or `≥`. -/
def diseqTrueSpec (op : Operator) (r : ℚ) : Prop :=
  ((0 : ℚ) < r ∧ (op = .lessThan ∨ op = .lessEq)) ∨
  ((0 : ℚ) = r ∧ (op = .lessEq ∨ op = .greaterEq ∨ op = .eq)) ∨
  ((0 : ℚ) > r ∧ (op = .greaterThan ∨ op = .greaterEq))

/-- Integer literal term. -/
def intLit (i : ℤ) : Term := .terminal (.int i)

/-- The variable `n` of sort `Int` from the spec's scenario 5. -/
def varN : Term := .terminal (.var "n" .int)

/-- The variable `m` of sort `Int` from the spec's scenario 5. -/
def varM : Term := .terminal (.var "m" .int)

/-- The literal `(not (<= (- 1) n))`. -/
def c2lit1 : Term :=
  .op .not (.cons (.op .lessEq (.cons (.op .sub (.cons (intLit 1) .nil))
    (.cons varN .nil))) .nil)

/-- The literal `(not (<= (- 1) (+ n m)))`. -/
def c2lit2 : Term :=
  .op .not (.cons (.op .lessEq (.cons (.op .sub (.cons (intLit 1) .nil))
    (.cons (.op .add (.cons varN (.cons varM .nil))) .nil))) .nil)

/-- The literal `(<= (- 2) (* 2 n))`. -/
def c2lit3 : Term :=
  .op .lessEq (.cons (.op .sub (.cons (intLit 2) .nil))
    (.cons (.op .mult (.cons (intLit 2) (.cons varN .nil))) .nil))

/-- The literal `(not (<= m 1))`. -/
def c2lit4 : Term :=
  .op .not (.cons (.op .lessEq (.cons varM (.cons (intLit 1) .nil))) .nil)

/-- The argument list `(1 1 1 1)`. -/
def c2args : List ProofArg :=
  [.term (intLit 1), .term (intLit 1), .term (intLit 1), .term (intLit 1)]

mutual
/-- Spec-side (claim C9): the value of a term built from `+`, unary `-`
and n-ary `-` under a numeric assignment `ν` to its leaves. -/
def evalArith (ν : Term → ℚ) : Term → ℚ
  | .op .add args => evalArithSum ν args
  | .op .sub (.cons t .nil) => -(evalArith ν t)
  | .op .sub (.cons a rest) => evalArith ν a - evalArithSum ν rest
  | t => ν t
/-- Sum of `evalArith` over an argument list. -/
def evalArithSum (ν : Term → ℚ) : TermList → ℚ
  | .nil => 0
  | .cons a rest => evalArith ν a + evalArithSum ν rest
end

/-- Spec-side (claim C9): Σ over the flattened list of ±value. -/
def signedSum (ν : Term → ℚ) (l : List (Term × Bool)) : ℚ :=
  (l.map (fun p => if p.2 then ν p.1 else -ν p.1)).sum

lemma signedSum_append (ν : Term → ℚ) (l1 l2 : List (Term × Bool)) :
    signedSum ν (l1 ++ l2) = signedSum ν l1 + signedSum ν l2 := by
  simp [signedSum]

lemma signedSum_flip (ν : Term → ℚ) (l : List (Term × Bool)) :
    signedSum ν (l.map (fun p => (p.1, !p.2))) = -signedSum ν l := by
  induction l with
  | nil => simp [signedSum]
  | cons a rest ih =>
    obtain ⟨t, b⟩ := a
    cases b <;> simp [signedSum] at ih ⊢ <;> linarith

/-- Spec-side (claim C3): the linear combination maps no term to a zero
coefficient. -/
def noZeroCoeffs (l : List (Term × ℚ)) : Prop := ∀ p ∈ l, p.2 ≠ 0

/-- Spec-side (claim C3): a flattened summand is benign for the no-zero
invariant: if it is a product `(* a b)` with exactly one
constant-evaluable side, that constant is nonzero. -/
def multArgOk (arg : Term) : Bool :=
  match arg with
  | .op .mult (.cons a (.cons b .nil)) =>
    (match simpleOperationToRational a, simpleOperationToRational b with
     | .retNone, .ok r => decide (r ≠ 0)
     | .ok r, .retNone => decide (r ≠ 0)
     | _, _ => true)
  | _ => true

/-- Spec-side (claim C4): the recognized fragment of
`simple_operation_to_rational` — terms built, nested arbitrarily, from
`/` and `div` applications, unary `-`, and integer or rational
literals. -/
def isFragment : Term → Bool
  | .op .realDiv (.cons n (.cons d .nil)) => isFragment n && isFragment d
  | .op .intDiv (.cons n (.cons d .nil)) => isFragment n && isFragment d
  | .op .sub (.cons t .nil) => isFragment t
  | t => t.tryAsRatio.isSome

/-- Spec-side (claim C4): the rational value a fragment term denotes —
defined (`some`) exactly on fragment terms in which no division has a
zero denominator, `none` everywhere else. -/
def fragDenotes : Term → Option ℚ
  | .op .realDiv (.cons n (.cons d .nil)) => do
    let vn ← fragDenotes n
    let vd ← fragDenotes d
    if vd = 0 then none else some (vn / vd)
  | .op .intDiv (.cons n (.cons d .nil)) => do
    let vn ← fragDenotes n
    let vd ← fragDenotes d
    if vd = 0 then none else some (vn / vd)
  | .op .sub (.cons t .nil) => (fragDenotes t).map (fun v => -v)
  | t => t.tryAsRatio

/-- Spec-side (claim C4): every division reached during evaluation has a
nonzero denominator (the denominator is only reached when the numerator
evaluates to a value). -/
def divSafe : Term → Bool
  | .op .realDiv (.cons n (.cons d .nil)) =>
    divSafe n &&
      (match simpleOperationToRational n with
       | .ok _ => divSafe d && !(decide (simpleOperationToRational d = RRes.ok 0))
       | _ => true)
  | .op .intDiv (.cons n (.cons d .nil)) =>
    divSafe n &&
      (match simpleOperationToRational n with
       | .ok _ => divSafe d && !(decide (simpleOperationToRational d = RRes.ok 0))
       | _ => true)
  | .op .sub (.cons t .nil) => divSafe t
  | _ => true

/-! ### Parser embedding (parser/mod.rs)

The parser is embedded over a token list (the lexer is an external
collaborator producing tokens, spec §6); `Position` payloads are omitted
from errors since only the error kind is observable in the claims.  All
recursive parsing functions take a fuel parameter; `.outOfFuel` is an
artifact of the embedding, never produced by the source.  `.fatalErr`
models a Rust panic (an `unwrap` on a violated invariant). -/

/-- Modelled from the spec (§6): the reserved words the parser consumes. -/
inductive Reserved where
  | assume | step | anchor | cl | declareFun | declareConst | declareSort
  | defineFun | assert | existsR | forallR | choiceR | letR | bang
deriving DecidableEq

/-- `format!("{}", r)` on a reserved word (used for rule names). -/
def Reserved.display : Reserved → String
  | .assume => "assume"
  | .step => "step"
  | .anchor => "anchor"
  | .cl => "cl"
  | .declareFun => "declare-fun"
  | .declareConst => "declare-const"
  | .declareSort => "declare-sort"
  | .defineFun => "define-fun"
  | .assert => "assert"
  | .existsR => "exists"
  | .forallR => "forall"
  | .choiceR => "choice"
  | .letR => "let"
  | .bang => "!"

/-- Modelled from the spec (§6): lexer tokens.  A keyword `:name` carries
`name` without the colon. -/
inductive Token where
  | openParen
  | closeParen
  | symbol (s : String)
  | keyword (s : String)
  | reservedWord (r : Reserved)
  | numeral (n : ℕ)
  | decimal (r : ℚ)
  | strLit (s : String)
  | eof
deriving DecidableEq

/-- Modelled from the spec (§4.4): the parser errors (their `Position`
payloads are omitted). -/
inductive PErr where
  | unexpectedToken (t : Token)
  | emptySequence
  | undefinedIden (s : String)
  | undefinedStepIndex (s : String)
  | repeatedStepIndex (s : String)
  | undefinedSort (s : String)
  | wrongNumberOfArgs (expected got : ℕ)
  | notAFunction (s : SmtSort)
  | invalidSortArity
  | unclosedSubproof (s : String)
  | lastSubproofStepIsNotStep (s : String)
  | unknownAttribute (s : String)
  | sortError (expected : List SmtSort) (got : SmtSort)
  | fatalErr
  | outOfFuel
deriving DecidableEq

/-- Modelled from the spec (§4.3): a stack of maps with strict shadowing;
the head scope is the innermost.  Maps are association lists in which
insertion prepends and lookup takes the first hit (`AHashMap` insertion
replaces). -/
structure SymbolTable (K V : Type) where
  scopes : List (List (K × V))
deriving DecidableEq

def SymbolTable.pushScope (t : SymbolTable K V) : SymbolTable K V :=
  ⟨[] :: t.scopes⟩

def SymbolTable.popScope (t : SymbolTable K V) : SymbolTable K V :=
  ⟨t.scopes.tail⟩

def SymbolTable.insert [DecidableEq K] (t : SymbolTable K V) (k : K) (v : V) :
    SymbolTable K V :=
  match t.scopes with
  | [] => ⟨[[(k, v)]]⟩
  | s :: rest => ⟨((k, v) :: s) :: rest⟩

def lookupAssoc [DecidableEq K] : List (K × V) → K → Option V
  | [], _ => none
  | (k, v) :: rest, key => if k = key then some v else lookupAssoc rest key

def lookupScopes [DecidableEq K] : List (List (K × V)) → K → Option V
  | [], _ => none
  | s :: rest, k =>
    match lookupAssoc s k with
    | some v => some v
    | none => lookupScopes rest k

def SymbolTable.get [DecidableEq K] (t : SymbolTable K V) (k : K) : Option V :=
  lookupScopes t.scopes k

def lookupScopesWithDepth [DecidableEq K] :
    List (List (K × V)) → K → Option (ℕ × V)
  | [], _ => none
  | s :: rest, k =>
    match lookupAssoc s k with
    | some v => some (0, v)
    | none => (lookupScopesWithDepth rest k).map (fun p => (p.1 + 1, p.2))

/-- `get_with_depth`: the depth counts scopes upward from the innermost
(0 is the innermost scope). -/
def SymbolTable.getWithDepth [DecidableEq K] (t : SymbolTable K V) (k : K) :
    Option (ℕ × V) :=
  lookupScopesWithDepth t.scopes k

/-- Modelled from the spec (§3): a function definition. -/
structure FunctionDef where
  params : List (String × SmtSort)
  body : Term
deriving DecidableEq

/-- `ParserState` (parser/mod.rs:38-45); the term pool is represented by
the identity (handles are terms). -/
structure ParserState where
  sortsSymbolTable : SymbolTable String SmtSort
  functionDefs : List (String × FunctionDef)
  sortDeclarations : List (String × ℕ)
  stepIndices : SymbolTable String ℕ
deriving DecidableEq

/-- The parser: remaining tokens (the head is `current_token`; an
exhausted stream keeps yielding `eof`), the shared state, and the
`interpret_integers_as_reals` flag. -/
structure PState where
  tokens : List Token
  state : ParserState
  interpretIntegersAsReals : Bool
deriving DecidableEq

def PState.current (st : PState) : Token := st.tokens.headD .eof

/-- `next_token`: returns the current token and advances. -/
def PState.nextTok (st : PState) : Token × PState :=
  (st.current, { st with tokens := st.tokens.tail })

def PState.pushSorts (st : PState) : PState :=
  { st with state := { st.state with
      sortsSymbolTable := st.state.sortsSymbolTable.pushScope } }

def PState.popSorts (st : PState) : PState :=
  { st with state := { st.state with
      sortsSymbolTable := st.state.sortsSymbolTable.popScope } }

def PState.insertSortedVar (st : PState) (v : String × SmtSort) : PState :=
  { st with state := { st.state with
      sortsSymbolTable := st.state.sortsSymbolTable.insert v.1 v.2 } }

def PState.insertFD (st : PState) (name : String) (fd : FunctionDef) : PState :=
  { st with state := { st.state with
      functionDefs := (name, fd) :: st.state.functionDefs } }

def PState.insertSortDecl (st : PState) (name : String) (arity : ℕ) : PState :=
  { st with state := { st.state with
      sortDeclarations := (name, arity) :: st.state.sortDeclarations } }

def PState.pushStepScope (st : PState) : PState :=
  { st with state := { st.state with
      stepIndices := st.state.stepIndices.pushScope } }

def PState.popStepScope (st : PState) : PState :=
  { st with state := { st.state with
      stepIndices := st.state.stepIndices.popScope } }

def PState.insertStepIndex (st : PState) (index : String) (pos : ℕ) : PState :=
  { st with state := { st.state with
      stepIndices := st.state.stepIndices.insert index pos } }

/-- `expect_token` (parser/mod.rs:239-246). -/
def expectToken (expected : Token) (st : PState) : Except PErr (Unit × PState) :=
  let (got, st') := st.nextTok
  if got = expected then .ok ((), st') else .error (.unexpectedToken got)

/-- `expect_symbol` (parser/mod.rs:250-255). -/
def expectSymbol (st : PState) : Except PErr (String × PState) :=
  match st.nextTok with
  | (.symbol s, st') => .ok (s, st')
  | (other, _) => .error (.unexpectedToken other)

/-- `expect_keyword` (parser/mod.rs:259-264). -/
def expectKeyword (st : PState) : Except PErr (String × PState) :=
  match st.nextTok with
  | (.keyword s, st') => .ok (s, st')
  | (other, _) => .error (.unexpectedToken other)

/-- `expect_numeral` (parser/mod.rs:268-273). -/
def expectNumeral (st : PState) : Except PErr (ℕ × PState) :=
  match st.nextTok with
  | (.numeral n, st') => .ok (n, st')
  | (other, _) => .error (.unexpectedToken other)

/-- `parse_sequence` (parser/mod.rs:277-294): calls `f` until a `)` is
reached; when `nonEmpty` is set an immediately-closing sequence is an
error (the source checks emptiness of the collected results, which is
the same condition). -/
def parseSequence (fuel : ℕ) (f : PState → Except PErr (α × PState))
    (nonEmpty : Bool) (st : PState) : Except PErr (List α × PState) :=
  match fuel with
  | 0 => .error .outOfFuel
  | fuel + 1 =>
    if st.current = Token.closeParen then
      if nonEmpty then .error .emptySequence
      else .ok ([], st.nextTok.2)
    else do
      let (a, st') ← f st
      let (rest, st'') ← parseSequence fuel f false st'
      .ok (a :: rest, st'')

/-- `read_until_close_parens` (parser/mod.rs:296-309), with the running
parenthesis depth made explicit (the source starts at 1). -/
def readUntilCloseParens (fuel : ℕ) (depth : ℕ) (st : PState) :
    Except PErr (Unit × PState) :=
  match fuel with
  | 0 => .error .outOfFuel
  | fuel + 1 =>
    if depth = 0 then .ok ((), st)
    else
      match st.nextTok with
      | (.openParen, st') => readUntilCloseParens fuel (depth + 1) st'
      | (.closeParen, st') => readUntilCloseParens fuel (depth - 1) st'
      | (.eof, _) => .error (.unexpectedToken .eof)
      | (_, st') => readUntilCloseParens fuel depth st'

/-- Modelled from the spec: `Operator::from_str` with the SMT-LIB
operator symbols. -/
def Operator.fromStr (s : String) : Option Operator :=
  if s = "not" then some .not
  else if s = "=>" then some .implies
  else if s = "or" then some .or
  else if s = "and" then some .and
  else if s = "xor" then some .xor
  else if s = "=" then some .eq
  else if s = "distinct" then some .distinct
  else if s = "ite" then some .ite
  else if s = "+" then some .add
  else if s = "-" then some .sub
  else if s = "*" then some .mult
  else if s = "div" then some .intDiv
  else if s = "/" then some .realDiv
  else if s = "<" then some .lessThan
  else if s = ">" then some .greaterThan
  else if s = "<=" then some .lessEq
  else if s = ">=" then some .greaterEq
  else if s = "select" then some .select
  else if s = "store" then some .store
  else none

/-- Modelled from the spec (§4.2): `SortError::assert_eq`. -/
def assertEqSort (expected got : SmtSort) : Except PErr Unit :=
  if expected = got then .ok () else .error (.sortError [expected] got)

/-- Modelled from the spec (§4.2): `SortError::assert_all_eq` — every
sort must equal the first. -/
def assertAllEqSorts : List SmtSort → Except PErr Unit
  | [] => .ok ()
  | s :: rest => go s rest
where go (first : SmtSort) : List SmtSort → Except PErr Unit
  | [] => .ok ()
  | s :: rest => do
    let _ ← assertEqSort first s
    go first rest

/-- Modelled from the spec (§4.2): `SortError::assert_one_of`. -/
def assertOneOfSorts (options : List SmtSort) (got : SmtSort) : Except PErr Unit :=
  if got ∈ options then .ok () else .error (.sortError options got)

/-- Every sort is `Int` or `Real` (the comparison operators). -/
def assertAllOneOf (options : List SmtSort) : List SmtSort → Except PErr Unit
  | [] => .ok ()
  | s :: rest => do
    let _ ← assertOneOfSorts options s
    assertAllOneOf options rest

/-- `ParserError::assert_num_of_args`. -/
def assertNumArgs (args : List Term) (expected : ℕ) : Except PErr Unit :=
  if args.length = expected then .ok ()
  else .error (.wrongNumberOfArgs expected args.length)

/-- `ParserError::assert_num_of_args_range` with a lower bound `lo..`. -/
def assertNumArgsAtLeast (args : List Term) (lo : ℕ) : Except PErr Unit :=
  if lo ≤ args.length then .ok ()
  else .error (.wrongNumberOfArgs lo args.length)

/-- Indexing into the computed sort list after the arity assert (the
default is never reached). -/
def sortAt (sorts : List SmtSort) (i : ℕ) : SmtSort := sorts.getD i .bool

/-- `make_var` (parser/mod.rs:112-120). -/
def makeVarTerm (iden : String) (st : PState) : Except PErr (Term × PState) :=
  match st.state.sortsSymbolTable.get iden with
  | none => .error (.undefinedIden iden)
  | some sort => .ok (.terminal (.var iden sort), st)

/-- `make_op` (parser/mod.rs:123-214): sort checking per operator, then
the interned `Op` term. -/
def makeOp (o : Operator) (args : List Term) : Except PErr Term := do
  let sorts := args.map Term.sortOf
  match o with
  | .not => do
    let _ ← assertNumArgs args 1
    let _ ← assertEqSort .bool (sortAt sorts 0)
  | .implies => do
    let _ ← assertNumArgsAtLeast args 2
    let _ ← assertAllOneOf [.bool] sorts
  | .or | .and | .xor => do
    let _ ← assertNumArgsAtLeast args 1
    let _ ← assertAllOneOf [.bool] sorts
  | .eq | .distinct => do
    let _ ← assertNumArgsAtLeast args 2
    let _ ← assertAllEqSorts sorts
  | .ite => do
    let _ ← assertNumArgs args 3
    let _ ← assertEqSort .bool (sortAt sorts 0)
    let _ ← assertEqSort (sortAt sorts 1) (sortAt sorts 2)
  | .add | .mult | .intDiv | .realDiv => do
    let _ ← assertNumArgsAtLeast args 2
    let _ ← assertOneOfSorts [.int, .real] (sortAt sorts 0)
    let _ ← assertAllEqSorts sorts
  | .sub => do
    let _ ← assertNumArgsAtLeast args 1
    let _ ← assertOneOfSorts [.int, .real] (sortAt sorts 0)
    let _ ← assertAllEqSorts sorts
  | .lessThan | .greaterThan | .lessEq | .greaterEq => do
    let _ ← assertNumArgsAtLeast args 2
    let _ ← assertAllOneOf [.int, .real] sorts
  | .select => do
    let _ ← assertNumArgs args 2
    match sortAt sorts 0 with
    | .array _ _ => .ok ()
    | got => .error (.sortError [.array (sortAt sorts 1) (.atom "Y" .nil)] got)
  | .store => do
    let _ ← assertNumArgs args 3
    match sortAt sorts 0 with
    | .array x y => do
      let _ ← assertEqSort x (sortAt sorts 1)
      assertEqSort y (sortAt sorts 2)
    | got => .error (.sortError [.array (sortAt sorts 0) (sortAt sorts 1)] got)
  .ok (.op o (TermList.ofList args))

/-- The sort check of `make_app`'s argument loop. -/
def assertAppArgs : List SmtSort → List Term → Except PErr Unit
  | _, [] => .ok ()
  | s :: srest, a :: arest => do
    let _ ← assertEqSort s a.sortOf
    assertAppArgs srest arest
  | [], _ :: _ => .ok ()

/-- `make_app` (parser/mod.rs:217-236). -/
def makeApp (f : Term) (args : List Term) : Except PErr Term := do
  match f.sortOf with
  | .func sorts => do
    let sl := sorts.toList
    let _ ← assertNumArgs args (sl.length - 1)
    let _ ← assertAppArgs sl args
    .ok (.app f (TermList.ofList args))
  | s => .error (.notAFunction s)

def lookupFD (defs : List (String × FunctionDef)) (s : String) : Option FunctionDef :=
  lookupAssoc defs s

def substFind (sub : List (Term × Term)) (t : Term) : Option Term :=
  match sub with
  | [] => none
  | (k, v) :: rest => if k = t then some v else substFind rest t

mutual
/-- Modelled from the spec (§4.1): `apply_substitution` on a defined
function's body — replaces each parameter variable by its argument.  (The
spec's substitution is capture-avoiding; the claims only exercise it
through `define-fun` bodies, where the domain is the parameter variables.) -/
def applySubst (sub : List (Term × Term)) (t : Term) : Term :=
  match substFind sub t with
  | some v => v
  | none =>
    match t with
    | .op o args => .op o (applySubstList sub args)
    | .app f args => .app (applySubst sub f) (applySubstList sub args)
    | .quant q b body => .quant q b (applySubst sub body)
    | .choice v body => .choice v (applySubst sub body)
    | .lett b body => .lett (applySubstLet sub b) (applySubst sub body)
    | other => other
def applySubstList (sub : List (Term × Term)) : TermList → TermList
  | .nil => .nil
  | .cons a rest => .cons (applySubst sub a) (applySubstList sub rest)
def applySubstLet (sub : List (Term × Term)) : LetBindings → LetBindings
  | .nil => .nil
  | .cons n v rest => .cons n (applySubst sub v) (applySubstLet sub rest)
end

def LetBindings.ofList : List (String × Term) → LetBindings
  | [] => .nil
  | (n, v) :: rest => .cons n v (LetBindings.ofList rest)

/-- The sort check of the defined-function application loop
(parser/mod.rs:899-902). -/
def assertParamSorts : List (String × SmtSort) → List Term → Except PErr Unit
  | _, [] => .ok ()
  | (_, s) :: prest, a :: arest => do
    let _ ← assertEqSort s a.sortOf
    assertParamSorts prest arest
  | [], _ :: _ => .ok ()

/-- The name-resolution part of `parse_sort` (parser/mod.rs:952-977). -/
def resolveSort (name : String) (args : List SmtSort) (st : PState) :
    Except PErr (SmtSort × PState) :=
  if (name = "Bool" ∨ name = "Int" ∨ name = "Real" ∨ name = "String") ∧ args ≠ [] then
    .error (.wrongNumberOfArgs 0 args.length)
  else if name = "Bool" then .ok (.bool, st)
  else if name = "Int" then .ok (.int, st)
  else if name = "Real" then .ok (.real, st)
  else if name = "String" then .ok (.string, st)
  else if name = "Array" then
    match args with
    | [x, y] => .ok (.array x y, st)
    | _ => .error (.wrongNumberOfArgs 2 args.length)
  else
    match lookupAssoc st.state.sortDeclarations name with
    | some arity =>
      if arity = args.length then .ok (.atom name (SmtSortList.ofList args), st)
      else .error (.wrongNumberOfArgs arity args.length)
    | none => .error (.undefinedSort name)

mutual
/-- `parse_term` (parser/mod.rs:733-763). -/
def parseTerm (fuel : ℕ) (st : PState) : Except PErr (Term × PState) :=
  match fuel with
  | 0 => .error .outOfFuel
  | fuel + 1 =>
    match st.nextTok with
    | (.numeral n, st') =>
      if st.interpretIntegersAsReals then .ok (.terminal (.real (n : ℚ)), st')
      else .ok (.terminal (.int (n : ℤ)), st')
    | (.decimal r, st') => .ok (.terminal (.real r), st')
    | (.strLit s, st') => .ok (.terminal (.str s), st')
    | (.symbol s, st') =>
      (match lookupFD st'.state.functionDefs s with
       | some fd =>
         if fd.params = [] then .ok (fd.body, st')
         else .error (.wrongNumberOfArgs fd.params.length 0)
       | none => makeVarTerm s st')
    | (.openParen, st') => parseApplication fuel st'
    | (other, _) => .error (.unexpectedToken other)

/-- `parse_term_expecting_sort` (parser/mod.rs:766-772). -/
def parseTermExpectingSort (fuel : ℕ) (expected : SmtSort) (st : PState) :
    Except PErr (Term × PState) :=
  match fuel with
  | 0 => .error .outOfFuel
  | fuel + 1 => do
    let (t, st') ← parseTerm fuel st
    let _ ← assertEqSort expected t.sortOf
    .ok (t, st')

/-- `parse_application` (parser/mod.rs:859-937). -/
def parseApplication (fuel : ℕ) (st : PState) : Except PErr (Term × PState) :=
  match fuel with
  | 0 => .error .outOfFuel
  | fuel + 1 =>
    match st.current with
    | .reservedWord r =>
      let st' := st.nextTok.2
      (match r with
       | .existsR => parseQuantifier fuel Quantifier.existsQ st'
       | .forallR => parseQuantifier fuel Quantifier.forallQ st'
       | .choiceR => parseChoiceTerm fuel st'
       | .bang => parseAnnotatedTerm fuel st'
       | .letR => parseLetTerm fuel st'
       | _ => .error (.unexpectedToken (.reservedWord r)))
    | .symbol s =>
      (match Operator.fromStr s with
       | some o => do
         let st' := st.nextTok.2
         let (args, st'') ← parseSequence fuel (fun s1 => parseTerm fuel s1) true st'
         match makeOp o args with
         | .error e => .error e
         | .ok t => .ok (t, st'')
       | none =>
         if (lookupFD st.state.functionDefs s).isSome then do
           let (funcName, st') ← expectSymbol st
           let (args, st'') ← parseSequence fuel (fun s1 => parseTerm fuel s1) true st'
           match lookupFD st''.state.functionDefs funcName with
           | none => .error .fatalErr
           | some func => do
             let _ ← assertNumArgs args func.params.length
             let _ ← assertParamSorts func.params args
             let sub := (func.params.zip args).map
               (fun p => (Term.terminal (.var p.1.1 p.1.2), p.2))
             .ok (applySubst sub func.body, st'')
         else do
           let (f, st') ← parseTerm fuel st
           let (args, st'') ← parseSequence fuel (fun s1 => parseTerm fuel s1) true st'
           match makeApp f args with
           | .error e => .error e
           | .ok t => .ok (t, st''))
    | _ => do
      let (f, st') ← parseTerm fuel st
      let (args, st'') ← parseSequence fuel (fun s1 => parseTerm fuel s1) true st'
      match makeApp f args with
      | .error e => .error e
      | .ok t => .ok (t, st'')

/-- `parse_quantifier` (parser/mod.rs:774-789). -/
def parseQuantifier (fuel : ℕ) (q : Quantifier) (st : PState) :
    Except PErr (Term × PState) :=
  match fuel with
  | 0 => .error .outOfFuel
  | fuel + 1 => do
    let ((), st1) ← expectToken .openParen st
    let st2 := st1.pushSorts
    let (bindings, st3) ← parseSequence fuel
      (fun s1 => do
        let (v, s2) ← parseSortedVar fuel s1
        .ok (v, s2.insertSortedVar v)) true st2
    let (body, st4) ← parseTermExpectingSort fuel .bool st3
    let st5 := st4.popSorts
    let ((), st6) ← expectToken .closeParen st5
    .ok (.quant q bindings body, st6)

/-- `parse_choice_term` (parser/mod.rs:791-799). -/
def parseChoiceTerm (fuel : ℕ) (st : PState) : Except PErr (Term × PState) :=
  match fuel with
  | 0 => .error .outOfFuel
  | fuel + 1 => do
    let ((), st1) ← expectToken .openParen st
    let (v, st2) ← parseSortedVar fuel st1
    let st3 := st2.insertSortedVar v
    let ((), st4) ← expectToken .closeParen st3
    let (inner, st5) ← parseTerm fuel st4
    let ((), st6) ← expectToken .closeParen st5
    .ok (.choice v inner, st6)

/-- `parse_let_term` (parser/mod.rs:801-820). -/
def parseLetTerm (fuel : ℕ) (st : PState) : Except PErr (Term × PState) :=
  match fuel with
  | 0 => .error .outOfFuel
  | fuel + 1 => do
    let ((), st1) ← expectToken .openParen st
    let st2 := st1.pushSorts
    let (bindings, st3) ← parseSequence fuel
      (fun s1 => do
        let ((), s2) ← expectToken .openParen s1
        let (name, s3) ← expectSymbol s2
        let (value, s4) ← parseTerm fuel s3
        let s5 := s4.insertSortedVar (name, value.sortOf)
        let ((), s6) ← expectToken .closeParen s5
        .ok ((name, value), s6)) true st2
    let (inner, st4) ← parseTerm fuel st3
    let ((), st5) ← expectToken .closeParen st4
    let st6 := st5.popSorts
    .ok (.lett (LetBindings.ofList bindings) inner, st6)

/-- `parse_annotated_term` (parser/mod.rs:822-857). -/
def parseAnnotatedTerm (fuel : ℕ) (st : PState) : Except PErr (Term × PState) :=
  match fuel with
  | 0 => .error .outOfFuel
  | fuel + 1 => do
    let (inner, st1) ← parseTerm fuel st
    let (_, st2) ← parseSequence fuel
      (fun s1 => do
        let (attr, s2) ← expectKeyword s1
        if attr = "named" then do
          let (name, s3) ← expectSymbol s2
          .ok ((), s3.insertFD name ⟨[], inner⟩)
        else if attr = "pattern" then do
          let ((), s3) ← expectToken .openParen s2
          let (_, s4) ← parseSequence fuel (fun s5 => parseTerm fuel s5) true s3
          .ok ((), s4)
        else .error (.unknownAttribute attr)) true st1
    .ok (inner, st2)

/-- `parse_sort` (parser/mod.rs:940-979). -/
def parseSort (fuel : ℕ) (st : PState) : Except PErr (SmtSort × PState) :=
  match fuel with
  | 0 => .error .outOfFuel
  | fuel + 1 =>
    match st.nextTok with
    | (.symbol s, st1) => resolveSort s [] st1
    | (.openParen, st1) => do
      let (name, st2) ← expectSymbol st1
      let (args, st3) ← parseSequence fuel (fun s1 => parseSort fuel s1) true st2
      resolveSort name args st3
    | (other, _) => .error (.unexpectedToken other)

/-- `parse_sorted_var` (parser/mod.rs:724-730). -/
def parseSortedVar (fuel : ℕ) (st : PState) :
    Except PErr ((String × SmtSort) × PState) :=
  match fuel with
  | 0 => .error .outOfFuel
  | fuel + 1 => do
    let ((), st1) ← expectToken .openParen st
    let (symbol, st2) ← expectSymbol st1
    let (sort, st3) ← parseSort fuel st2
    let ((), st4) ← expectToken .closeParen st3
    .ok ((symbol, sort), st4)
end

/-- `parse_declare_fun` (parser/mod.rs:636-651). -/
def parseDeclareFun (fuel : ℕ) (st : PState) :
    Except PErr ((String × SmtSort) × PState) := do
  let (name, st1) ← expectSymbol st
  let ((), st2) ← expectToken .openParen st1
  let (sorts, st3) ← parseSequence fuel (fun s => parseSort fuel s) false st2
  let (ret, st4) ← parseSort fuel st3
  let sorts' := sorts ++ [ret]
  let sort := if sorts'.length = 1 then ret else SmtSort.func (SmtSortList.ofList sorts')
  let ((), st5) ← expectToken .closeParen st4
  .ok ((name, sort), st5)

/-- `parse_declare_sort` (parser/mod.rs:655-665); numerals are naturals,
so the `to_usize` conversion (`InvalidSortArity`) cannot fail here. -/
def parseDeclareSort (st : PState) : Except PErr ((String × ℕ) × PState) := do
  let (name, st1) ← expectSymbol st
  let (arity, st2) ← expectNumeral st1
  let ((), st3) ← expectToken .closeParen st2
  .ok ((name, arity), st3)

/-- `parse_define_fun` (parser/mod.rs:669-687). -/
def parseDefineFun (fuel : ℕ) (st : PState) :
    Except PErr ((String × FunctionDef) × PState) := do
  let (name, st1) ← expectSymbol st
  let ((), st2) ← expectToken .openParen st1
  let (params, st3) ← parseSequence fuel (fun s => parseSortedVar fuel s) false st2
  let (returnSort, st4) ← parseSort fuel st3
  let st5 := params.foldl (fun s v => s.insertSortedVar v) st4.pushSorts
  let (body, st6) ← parseTermExpectingSort fuel returnSort st5
  let st7 := st6.popSorts
  let ((), st8) ← expectToken .closeParen st7
  .ok ((name, FunctionDef.mk params body), st8)

/-- `parse_clause` (parser/mod.rs:690-694). -/
def parseClause (fuel : ℕ) (st : PState) : Except PErr (List Term × PState) := do
  let ((), st1) ← expectToken .openParen st
  let ((), st2) ← expectToken (.reservedWord .cl) st1
  parseSequence fuel (fun s => parseTermExpectingSort fuel .bool s) false st2

/-- `parse_proof_arg` (parser/mod.rs:697-721). -/
def parseProofArg (fuel : ℕ) (st : PState) : Except PErr (ProofArg × PState) :=
  if st.current = Token.openParen then
    let st1 := st.nextTok.2
    if st1.current = Token.keyword "=" then do
      let st2 := st1.nextTok.2
      let (name, st3) ← expectSymbol st2
      let (value, st4) ← parseTerm fuel st3
      let ((), st5) ← expectToken .closeParen st4
      .ok (ProofArg.assign name value, st5)
    else do
      let (t, st2) ← parseApplication fuel st1
      .ok (ProofArg.term t, st2)
  else do
    let (t, st1) ← parseTerm fuel st
    .ok (ProofArg.term t, st1)

/-- `parse_assume_command` (parser/mod.rs:508-513). -/
def parseAssumeCommand (fuel : ℕ) (st : PState) :
    Except PErr ((String × Term) × PState) := do
  let (index, st1) ← expectSymbol st
  let (t, st2) ← parseTermExpectingSort fuel .bool st1
  let ((), st3) ← expectToken .closeParen st2
  .ok ((index, t), st3)

/-- The `StepCommand` tuple (parser/mod.rs:31-37). -/
structure StepData where
  index : String
  clause : List Term
  rule : String
  premises : List String
  args : List ProofArg
  discharge : List String

/-- `parse_step_command` (parser/mod.rs:517-568). -/
def parseStepCommand (fuel : ℕ) (st : PState) :
    Except PErr (StepData × PState) := do
  let (stepIndex, st1) ← expectSymbol st
  let (clause, st2) ← parseClause fuel st1
  let ((), st3) ← expectToken (.keyword "rule") st2
  let (rule, st4) ←
    (match st3.nextTok with
     | (.symbol s, s') => Except.ok (s, s')
     | (.reservedWord r, s') => Except.ok (r.display, s')
     | (other, _) => .error (.unexpectedToken other))
  if rule = "trust" then do
    let ((), st5) ← readUntilCloseParens fuel 1 st4
    .ok (⟨stepIndex, clause, rule, [], [], []⟩, st5)
  else do
    let (premises, st5) ←
      if st4.current = Token.keyword "premises" then do
        let ((), st4b) ← expectToken .openParen st4.nextTok.2
        parseSequence fuel expectSymbol true st4b
      else Except.ok ([], st4)
    let (args, st6) ←
      if st5.current = Token.keyword "args" then do
        let ((), st5b) ← expectToken .openParen st5.nextTok.2
        parseSequence fuel (fun s => parseProofArg fuel s) true st5b
      else Except.ok ([], st5)
    let (discharge, st7) ←
      if st6.current = Token.keyword "discharge" then do
        let ((), st6b) ← expectToken .openParen st6.nextTok.2
        parseSequence fuel expectSymbol true st6b
      else Except.ok ([], st6)
    let ((), st8) ← expectToken .closeParen st7
    .ok (⟨stepIndex, clause, rule, premises, args, discharge⟩, st8)

/-- `parse_anchor_argument` (parser/mod.rs:602-632). -/
def parseAnchorArgument (fuel : ℕ) (st : PState) :
    Except PErr (Sum ((String × SmtSort) × Term) (String × SmtSort) × PState) := do
  let ((), st1) ← expectToken .openParen st
  if st1.current = Token.keyword "=" then do
    let st2 := st1.nextTok.2
    let (av, st3) ← parseSortedVar fuel st2
    let st4 := st3.insertSortedVar av
    let (b, st5) ←
      (match st4.current with
       | .symbol s =>
         if (lookupFD st4.state.functionDefs s).isSome then
           parseTermExpectingSort fuel av.2 st4
         else do
           let (var, st4a) ← expectSymbol st4
           let st4b := st4a.insertSortedVar (var, av.2)
           Except.ok (Term.terminal (.var var av.2), st4b)
       | _ => parseTermExpectingSort fuel av.2 st4)
    let ((), st6) ← expectToken .closeParen st5
    .ok (Sum.inl (av, b), st6)
  else do
    let (symbol, st2) ← expectSymbol st1
    let (sort, st3) ← parseSort fuel st2
    let st4 := st3.insertSortedVar (symbol, sort)
    let ((), st5) ← expectToken .closeParen st4
    .ok (Sum.inr (symbol, sort), st5)

/-- `parse_anchor_command` (parser/mod.rs:575-599).  Pushes a new sorts
scope (popped when the subproof is closed). -/
def parseAnchorCommand (fuel : ℕ) (st : PState) :
    Except PErr ((String × List (String × Term) × List (String × SmtSort)) × PState) := do
  let ((), st1) ← expectToken (.keyword "step") st
  let (endStepIndex, st2) ← expectSymbol st1
  let st3 := st2.pushSorts
  let (pair, st6) ←
    if st3.current = Token.keyword "args" then do
      let ((), st3b) ← expectToken .openParen st3.nextTok.2
      let (args, st4) ← parseSequence fuel (fun s => parseAnchorArgument fuel s) true st3b
      Except.ok
        ((args.filterMap (fun e => match e with
            | Sum.inl p => some (p.1.1, p.2)
            | Sum.inr _ => none),
          args.filterMap (fun e => match e with
            | Sum.inl _ => none
            | Sum.inr v => some v)), st4)
    else Except.ok (([], []), st3)
  let ((), st7) ← expectToken .closeParen st6
  .ok ((endStepIndex, pair.1, pair.2), st7)

/-- `AHashSet::insert` on the premises set. -/
def insertPremise (t : Term) (premises : List Term) : List Term :=
  if t ∈ premises then premises else premises ++ [t]

/-- The `set-logic` match (parser/mod.rs:355-367): true for the listed
real-only logics, false for the listed integer/bitvector/array logics,
and false (with a warning) for unknown logics. -/
def logicFlag (logic : String) : Bool :=
  if logic = "LRA" ∨ logic = "QF_LRA" ∨ logic = "QF_NRA" ∨ logic = "QF_RDL" ∨
     logic = "QF_UFLRA" ∨ logic = "QF_UFNRA" ∨ logic = "UFLRA" then true
  else if logic = "AUFLIA" ∨ logic = "AUFLIRA" ∨ logic = "AUFNIRA" ∨
     logic = "LIA" ∨ logic = "QF_ABV" ∨ logic = "QF_AUFBV" ∨
     logic = "QF_AUFLIA" ∨ logic = "QF_AX" ∨ logic = "QF_BV" ∨
     logic = "QF_IDL" ∨ logic = "QF_LIA" ∨ logic = "QF_NIA" ∨
     logic = "QF_UF" ∨ logic = "QF_UFBV" ∨ logic = "QF_UFIDL" ∨
     logic = "QF_UFLIA" ∨ logic = "UFNIA" then false
  else false

/-- The loop of `parse_problem` (parser/mod.rs:313-379), carrying the
premises set. -/
def parseProblemLoop (fuel : ℕ) (premises : List Term) (st : PState) :
    Except PErr (List Term × PState) :=
  match fuel with
  | 0 => .error .outOfFuel
  | fuel + 1 =>
    if st.current = Token.eof then .ok (premises, st)
    else do
      let ((), st1) ← expectToken .openParen st
      match st1.nextTok with
      | (.reservedWord .declareFun, st2) => do
        let ((name, sort), st3) ← parseDeclareFun fuel st2
        parseProblemLoop fuel premises (st3.insertSortedVar (name, sort))
      | (.reservedWord .declareConst, st2) => do
        let (name, st3) ← expectSymbol st2
        let (sort, st4) ← parseSort fuel st3
        let ((), st5) ← expectToken .closeParen st4
        parseProblemLoop fuel premises (st5.insertSortedVar (name, sort))
      | (.reservedWord .declareSort, st2) => do
        let ((name, arity), st3) ← parseDeclareSort st2
        parseProblemLoop fuel premises (st3.insertSortDecl name arity)
      | (.reservedWord .defineFun, st2) => do
        let ((name, fd), st3) ← parseDefineFun fuel st2
        parseProblemLoop fuel premises (st3.insertFD name fd)
      | (.reservedWord .assert, st2) => do
        let (t, st3) ← parseTerm fuel st2
        let ((), st4) ← expectToken .closeParen st3
        parseProblemLoop fuel (insertPremise t premises) st4
      | (.symbol s, st2) =>
        if s = "set-logic" then do
          let (logic, st3) ← expectSymbol st2
          let ((), st4) ← expectToken .closeParen st3
          parseProblemLoop fuel premises
            { st4 with interpretIntegersAsReals := logicFlag logic }
        else do
          let ((), st3) ← readUntilCloseParens fuel 1 st2
          parseProblemLoop fuel premises st3
      | (_, st2) => do
        let ((), st3) ← readUntilCloseParens fuel 1 st2
        parseProblemLoop fuel premises st3

/-- `parse_problem` (parser/mod.rs:313). -/
def parseProblem (fuel : ℕ) (st : PState) : Except PErr (List Term × PState) :=
  parseProblemLoop fuel [] st

/-- Modelled from the spec (§3): `ProofStep` — premises are
`(depth, position)` pairs. -/
structure ProofStep where
  index : String
  clause : List Term
  rule : String
  premises : List (ℕ × ℕ)
  args : List ProofArg
  discharge : List String

/-- Modelled from the spec (§3): proof commands. -/
inductive ProofCommand where
  | assume (index : String) (term : Term)
  | step (s : ProofStep)
  | subproof (commands : List ProofCommand)
      (assignmentArgs : List (String × Term))
      (variableArgs : List (String × SmtSort))

/-- The three pstacks of the iterative subproof assembly
(parser/mod.rs:385-387). -/
structure ProofStacks where
  commandsStack : List (List ProofCommand)
  endStepStack : List String
  subproofArgsStack : List (List (String × Term) × List (String × SmtSort))

/-- Premise resolution of a step (parser/mod.rs:403-417): each premise
index symbol is resolved through `step_indices.get_with_depth`. -/
def resolvePremises (names : List String) (st : PState) :
    Except PErr (List (ℕ × ℕ)) :=
  match names with
  | [] => .ok []
  | n :: rest =>
    match st.state.stepIndices.getWithDepth n with
    | none => .error (.undefinedStepIndex n)
    | some dv => do
      let others ← resolvePremises rest st
      .ok (dv :: others)

/-- Lines 452-491 of `parse_proof`: after a command with index `index`
has been parsed, reject repeated indices, push the command onto the top
frame, close the subproof when `index` equals the top of the end-step
stack (popping the sorts scope, the step-indices scope, the command
frame and the anchor args, requiring the frame's last command to be a
`Step`, and pushing a `Subproof` onto the enclosing frame), and record
the index's position.  The head of each stack is its top.  `.fatalErr`
models the `unwrap`s on violated stack invariants. -/
def handleParsedCommand (index : String) (command : ProofCommand)
    (pstacks : ProofStacks) (st : PState) :
    Except PErr (ProofStacks × PState) :=
  if (st.state.stepIndices.get index).isSome then
    .error (.repeatedStepIndex index)
  else
    match pstacks.commandsStack with
    | [] => .error .fatalErr
    | top :: restFrames =>
      let top := top ++ [command]
      match pstacks.endStepStack with
      | e :: erest =>
        if e = index then
          let st1 := st.popSorts.popStepScope
          match pstacks.subproofArgsStack with
          | [] => .error .fatalErr
          | (aArgs, vArgs) :: arest =>
            match top.getLast? with
            | some (ProofCommand.step _) =>
              (match restFrames with
               | [] => .error .fatalErr
               | parent :: prest =>
                 let parent := parent ++ [ProofCommand.subproof top aArgs vArgs]
                 .ok (⟨parent :: prest, erest, arest⟩,
                      st1.insertStepIndex index (parent.length - 1)))
            | _ => .error (.lastSubproofStepIsNotStep index)
        else
          .ok (⟨top :: restFrames, pstacks.endStepStack, pstacks.subproofArgsStack⟩,
               st.insertStepIndex index (top.length - 1))
      | [] =>
        .ok (⟨top :: restFrames, pstacks.endStepStack, pstacks.subproofArgsStack⟩,
             st.insertStepIndex index (top.length - 1))

/-- The loop of `parse_proof` (parser/mod.rs:382-504). -/
def parseProofLoop (fuel : ℕ) (pstacks : ProofStacks) (st : PState) :
    Except PErr (List ProofCommand × PState) :=
  match fuel with
  | 0 => .error .outOfFuel
  | fuel + 1 =>
    if st.current = Token.eof then
      match pstacks.commandsStack with
      | [cmds] => .ok (cmds, st)
      | [] => .error .fatalErr
      | _ :: _ :: _ =>
        (match pstacks.endStepStack with
         | e :: _ => .error (.unclosedSubproof e)
         | [] => .error .fatalErr)
    else do
      let ((), st1) ← expectToken .openParen st
      match st1.nextTok with
      | (.reservedWord .assume, st2) => do
        let ((index, t), st3) ← parseAssumeCommand fuel st2
        let (pstacks', st4) ← handleParsedCommand index (.assume index t) pstacks st3
        parseProofLoop fuel pstacks' st4
      | (.reservedWord .step, st2) => do
        let (sd, st3) ← parseStepCommand fuel st2
        let premises ← resolvePremises sd.premises st3
        let step : ProofStep :=
          ⟨sd.index, sd.clause, sd.rule, premises, sd.args, sd.discharge⟩
        let (pstacks', st4) ← handleParsedCommand sd.index (.step step) pstacks st3
        parseProofLoop fuel pstacks' st4
      | (.reservedWord .defineFun, st2) => do
        let ((name, fd), st3) ← parseDefineFun fuel st2
        parseProofLoop fuel pstacks (st3.insertFD name fd)
      | (.reservedWord .anchor, st2) => do
        let ((endIdx, aArgs, vArgs), st3) ← parseAnchorCommand fuel st2
        parseProofLoop fuel
          ⟨[] :: pstacks.commandsStack, endIdx :: pstacks.endStepStack,
           (aArgs, vArgs) :: pstacks.subproofArgsStack⟩
          st3.pushStepScope
      | (tok, _) => .error (.unexpectedToken tok)

/-- `parse_proof` (parser/mod.rs:382). -/
def parseProof (fuel : ℕ) (st : PState) :
    Except PErr (List ProofCommand × PState) :=
  parseProofLoop fuel ⟨[[]], [], []⟩ st

/-- `Parser::new` (parser/mod.rs:60-68): fresh state with `true` and
`false` of sort Bool in the sort table, and the
`interpret_integers_as_reals` flag off. -/
def initPState (tokens : List Token) : PState :=
  { tokens := tokens
    state :=
      { sortsSymbolTable := ⟨[[("false", SmtSort.bool), ("true", SmtSort.bool)]]⟩
        functionDefs := []
        sortDeclarations := []
        stepIndices := ⟨[[]]⟩ }
    interpretIntegersAsReals := false }

/-- The token stream of the problem `(assert 0)`: a well-formed `assert`
whose term has sort Int, not Bool. -/
def c5toks : List Token :=
  [Token.openParen, Token.reservedWord Reserved.assert, Token.numeral 0,
   Token.closeParen]

/-- The token stream `(anchor :step t1) (assume t1 true)`: a subproof
whose final command (the one whose index closes it) is an `Assume`. -/
def c6toks : List Token :=
  [Token.openParen, Token.reservedWord Reserved.anchor, Token.keyword "step",
   Token.symbol "t1", Token.closeParen,
   Token.openParen, Token.reservedWord Reserved.assume, Token.symbol "t1",
   Token.symbol "true", Token.closeParen]

/-! ## Theorems -/

lemma opIsLess_iff (op : Operator) :
    opIsLess op = true ↔ (op = .lessThan ∨ op = .lessEq) := by
  cases op <;> simp [opIsLess]

lemma opIsNonStrict_iff (op : Operator) :
    opIsNonStrict op = true ↔ (op = .lessEq ∨ op = .greaterEq ∨ op = .eq) := by
  cases op <;> simp [opIsNonStrict]

lemma opIsGreater_iff (op : Operator) :
    opIsGreater op = true ↔ (op = .greaterThan ∨ op = .greaterEq) := by
  cases op <;> simp [opIsGreater]

lemma isDisequalityTrue_iff (op : Operator) (r : ℚ) :
    isDisequalityTrue op r = true ↔ diseqTrueSpec op r := by
  unfold isDisequalityTrue cmp cmpUsing
  rcases lt_trichotomy (0 : ℚ) r with h | h | h
  · simp only [if_pos h]
    simp [diseqTrueSpec, opIsLess_iff, h, h.ne, asymm h]
  · subst h
    simp [diseqTrueSpec, opIsNonStrict_iff]
  · simp only [if_neg (asymm h), if_pos h]
    simp [diseqTrueSpec, opIsGreater_iff, h, h.ne', asymm h]

/-- **C1.** For every invocation of `la_generic` whose per-literal pipeline
succeeds (the argument count matches and the fold over the literals
produces `(op, lc)`), the rule accepts iff the folded left side is empty
and the final disequality is not true, where the disequality is true iff
(0 < right and op is `<` or `<=`), (0 = right and op is `<=`, `>=` or `=`),
or (0 > right and op is `>` or `>=`). -/
theorem la_generic_accept_iff
    (conclusion : List Term) (args : List ProofArg) (op : Operator) (lc : LinearComb)
    (hlen : conclusion.length = args.length)
    (hfold : laGenericFold (conclusion.zip args) (Operator.eq, LinearComb.new) = .ok (op, lc)) :
    laGeneric conclusion args = .ok () ↔
      (lc.coeffs = [] ∧ ¬ diseqTrueSpec op lc.const) := by
  unfold laGeneric
  rw [if_pos hlen, hfold, ← isDisequalityTrue_iff]
  by_cases hc : lc.coeffs = [] <;>
    cases h : isDisequalityTrue op lc.const <;>
      simp [hc, h]

theorem la_generic_accept_iff_witness :
    laGeneric [] [] = .ok () ↔
      (LinearComb.new.coeffs = [] ∧ ¬ diseqTrueSpec Operator.eq LinearComb.new.const) :=
  la_generic_accept_iff [] [] Operator.eq LinearComb.new rfl rfl

/-- **C10.** When the number of arguments differs from the number of
literals in the conclusion, `la_generic` rejects. -/
theorem la_generic_length_mismatch (conclusion : List Term) (args : List ProofArg)
    (h : conclusion.length ≠ args.length) : laGeneric conclusion args = .retNone := by
  unfold laGeneric
  rw [if_neg h]

theorem la_generic_length_mismatch_witness :
    laGeneric [] [ProofArg.term (intLit 1)] = .retNone :=
  la_generic_length_mismatch [] [ProofArg.term (intLit 1)] (by decide)

/-- **C2.** For a disequality with operator `>` whose constant times the
coefficient `a` is an integer, `strengthen` sets the constant to
`floor(constant)` plus the minimum absolute value of the left-side
coefficients (`minAbsCoeff`, which is 1 when the left side is empty), and
changes the operator to `≥`; and the concrete step
`(step t1 (cl (not (<= (- 1) n)) (not (<= (- 1) (+ n m))) (<= (- 2) (* 2 n))
(not (<= m 1))) :rule la_generic :args (1 1 1 1))` with `n m : Int` is
accepted. -/
theorem strengthen_gt_integer_and_scenario :
    (∀ (d : LinearComb) (a : ℚ), (d.const * a).den = 1 →
      strengthen .greaterThan d a =
        .ok (.greaterEq, { d with const := (Rat.floor d.const : ℚ) + minAbsCoeff d.coeffs })) ∧
    minAbsCoeff [] = 1 ∧
    laGeneric [c2lit1, c2lit2, c2lit3, c2lit4] c2args = .ok () := by
  refine ⟨?_, rfl, ?_⟩
  · intro d a h
    unfold strengthen
    simp [h]
  · norm_num +decide [laGeneric, laGenericFold, processLiteral, simpleOperationToRational,
      Term.tryAsRatio, negateDisequality, negateOperator, LinearComb.fromTerm,
      flattenSum, flattenSumArgs, LinearComb.fromTermGo, LinearComb.sub,
      LinearComb.add, LinearComb.neg, LinearComb.mul, LinearComb.insert,
      insertPair, strengthen, minAbsCoeff, LinearComb.new, isDisequalityTrue,
      cmp, cmpUsing, Rat.floor, opIsLess, opIsNonStrict, opIsGreater,
      c2lit1, c2lit2, c2lit3, c2lit4, c2args, intLit, varN, varM]

theorem strengthen_gt_integer_and_scenario_witness :
    strengthen .greaterThan ⟨[(varN, -2)], 2⟩ 1 =
      .ok (.greaterEq, ⟨[(varN, -2)], (Rat.floor (2 : ℚ) : ℚ) + minAbsCoeff [(varN, -2)]⟩) :=
  strengthen_gt_integer_and_scenario.1 ⟨[(varN, -2)], 2⟩ 1 (by simp)

/-- **C8.** `la_rw_eq` accepts iff the clause consists of exactly one
literal of the shape `(= (= t u) (and (<= t u) (<= u t)))` in which all
occurrences of `t` are the same handle and all occurrences of `u` are the
same handle. -/
theorem la_rw_eq_accept_iff (conclusion : List Term) :
    laRwEq conclusion = some () ↔
      ∃ t u, conclusion =
        [.op .eq (.cons (.op .eq (.cons t (.cons u .nil)))
          (.cons (.op .and (.cons (.op .lessEq (.cons t (.cons u .nil)))
            (.cons (.op .lessEq (.cons u (.cons t .nil))) .nil))) .nil))] := by
  constructor
  · intro h
    unfold laRwEq at h
    split at h
    · split at h
      · split at h
        · rename_i hcond
          obtain ⟨h1, h2, h3, h4⟩ := hcond
          subst h1; subst h2; subst h3; subst h4
          exact ⟨_, _, rfl⟩
        · simp at h
      · simp at h
    · simp at h
  · rintro ⟨t, u, rfl⟩
    simp [laRwEq]

/-- **C9.** For every term built from `+`, unary `-`, and n-ary `-`, and
every numeric assignment to its leaves, the flattened list preserves the
term's value: the sum of each entry's value, signed by its polarity,
equals the value of the term. -/
theorem flatten_sum_preserves_value (ν : Term → ℚ) :
    ∀ t l, flattenSum t = some l → signedSum ν l = evalArith ν t := by
  refine flattenSum.induct
    (fun t => ∀ l, flattenSum t = some l → signedSum ν l = evalArith ν t)
    (fun args => ∀ l, flattenSumArgs args = some l → signedSum ν l = evalArithSum ν args)
    ?_ ?_ ?_ ?_ ?_ ?_ ?_
  · intro args ih l h
    rw [flattenSum.eq_1] at h
    rw [evalArith.eq_1]
    exact ih l h
  · intro t ih l h
    rw [flattenSum.eq_2] at h
    cases hf : flattenSum t with
    | none => rw [hf] at h; exact Option.noConfusion h
    | some l0 =>
      rw [hf] at h
      simp only [Option.map_some', Option.some.injEq] at h
      subst h
      rw [evalArith.eq_2, signedSum_flip, ih l0 hf]
  · intro l h
    rw [flattenSum.eq_3] at h
    exact Option.noConfusion h
  · intro a rest hne iha ihrest l h
    rw [flattenSum.eq_4 a rest hne] at h
    cases hfa : flattenSum a with
    | none => rw [hfa] at h; exact Option.noConfusion h
    | some l1 =>
      cases hfr : flattenSumArgs rest with
      | none => rw [hfa, hfr] at h; exact Option.noConfusion h
      | some l2 =>
        rw [hfa, hfr] at h
        obtain rfl : l1 ++ List.map (fun p => (p.1, !p.2)) l2 = l := Option.some.inj h
        rw [evalArith.eq_3 ν a rest hne, signedSum_append, signedSum_flip,
          iha l1 hfa, ihrest l2 hfr]
        ring
  · intro t h1 h2 h3 h4 l h
    rw [flattenSum.eq_5 t h1 h2 h3 h4] at h
    simp only [Option.some.injEq] at h
    subst h
    rw [evalArith.eq_4 ν t h1 h2 h4]
    simp [signedSum]
  · intro l h
    rw [flattenSumArgs] at h
    simp only [Option.some.injEq] at h
    subst h
    simp [signedSum, evalArithSum]
  · intro a rest iha ihrest l h
    rw [flattenSumArgs] at h
    cases hfa : flattenSum a with
    | none => rw [hfa] at h; exact Option.noConfusion h
    | some l1 =>
      cases hfr : flattenSumArgs rest with
      | none => rw [hfa, hfr] at h; exact Option.noConfusion h
      | some l2 =>
        rw [hfa, hfr] at h
        obtain rfl : l1 ++ l2 = l := Option.some.inj h
        rw [signedSum_append, iha l1 hfa, ihrest l2 hfr, evalArithSum]

theorem flatten_sum_preserves_value_witness :
    signedSum (fun _ => 1) [(varN, true)] = evalArith (fun _ => 1) varN :=
  flatten_sum_preserves_value (fun _ => 1) varN [(varN, true)]
    (by simp [flattenSum, varN])

lemma insertPair_noZero (k : Term) (v : ℚ) :
    ∀ m, noZeroCoeffs m → v ≠ 0 → noZeroCoeffs (insertPair m k v) := by
  intro m
  induction m with
  | nil =>
    intro _ hv p hp
    simp only [insertPair, List.mem_singleton] at hp
    rw [hp]
    exact hv
  | cons a rest ih =>
    intro hm hv p hp
    obtain ⟨k', v'⟩ := a
    rw [insertPair] at hp
    by_cases hk : k' = k
    · rw [if_pos hk] at hp
      by_cases hz : v' + v = 0
      · rw [if_pos hz] at hp
        exact hm p (List.mem_cons_of_mem _ hp) 
      · rw [if_neg hz] at hp
        rcases List.mem_cons.mp hp with h | h
        · rw [h]
          exact hz
        · exact hm p (List.mem_cons_of_mem _ h)
    · rw [if_neg hk] at hp
      rcases List.mem_cons.mp hp with h | h
      · rw [h]
        exact hm (k', v') (List.mem_cons_self _ _)
      · exact ih (fun q hq => hm q (List.mem_cons_of_mem _ hq)) hv p h

lemma foldl_insertPair_noZero :
    ∀ (l m : List (Term × ℚ)), noZeroCoeffs m → noZeroCoeffs l →
      noZeroCoeffs (l.foldl (fun acc p => insertPair acc p.1 p.2) m) := by
  intro l
  induction l with
  | nil => intro m hm _; exact hm
  | cons a rest ih =>
    intro m hm hl
    rw [List.foldl_cons]
    exact ih _ (insertPair_noZero a.1 a.2 m hm (hl a (List.mem_cons_self _ _)))
      (fun q hq => hl q (List.mem_cons_of_mem _ hq))

lemma linearComb_add_noZero (a b : LinearComb)
    (ha : noZeroCoeffs a.coeffs) (hb : noZeroCoeffs b.coeffs) :
    noZeroCoeffs (a.add b).coeffs :=
  foldl_insertPair_noZero b.coeffs a.coeffs ha hb

lemma linearComb_mul_noZero (a : LinearComb) (s : ℚ) (hs : s ≠ 0)
    (ha : noZeroCoeffs a.coeffs) : noZeroCoeffs (a.mul s).coeffs := by
  intro p hp
  rw [LinearComb.mul] at hp
  simp only [List.mem_map] at hp
  obtain ⟨q, hq, rfl⟩ := hp
  exact mul_ne_zero (ha q hq) hs

lemma linearComb_sub_noZero (a b : LinearComb)
    (ha : noZeroCoeffs a.coeffs) (hb : noZeroCoeffs b.coeffs) :
    noZeroCoeffs (a.sub b).coeffs :=
  linearComb_add_noZero a b.neg ha
    (linearComb_mul_noZero b (-1) (by norm_num) hb)

lemma fromTermGo_noZero :
    ∀ (acc : LinearComb) (l : List (Term × Bool)), noZeroCoeffs acc.coeffs →
      (∀ p ∈ l, multArgOk p.1 = true) →
      ∀ lc, LinearComb.fromTermGo acc l = .ok lc → noZeroCoeffs lc.coeffs := by
  refine LinearComb.fromTermGo.induct
    (fun acc l => noZeroCoeffs acc.coeffs →
      (∀ p ∈ l, multArgOk p.1 = true) →
      ∀ lc, LinearComb.fromTermGo acc l = .ok lc → noZeroCoeffs lc.coeffs)
    ?_ ?_ ?_ ?_ ?_ ?_ ?_ ?_ ?_ ?_
  · intro acc hacc _ lc h
    rw [LinearComb.fromTermGo.eq_1] at h
    cases h
    exact hacc
  · intro acc polarity rest a b hsa hacc hl lc h
    rcases hsb : simpleOperationToRational b with _ | _ | r <;>
      rw [LinearComb.fromTermGo.eq_2, hsa, hsb] at h <;>
        exact RRes.noConfusion h
  · intro acc polarity rest a b hsb hna hacc hl lc h
    rcases hsa : simpleOperationToRational a with _ | _ | r
    · exact absurd hsa hna
    · rw [LinearComb.fromTermGo.eq_2, hsa, hsb] at h
      exact RRes.noConfusion h
    · rw [LinearComb.fromTermGo.eq_2, hsa, hsb] at h
      exact RRes.noConfusion h
  · intro acc polarity rest pc a b hsb hsa ih hacc hl lc h
    rw [LinearComb.fromTermGo.eq_2, hsa, hsb] at h
    refine ih ?_ (fun p hp => hl p (List.mem_cons_of_mem _ hp)) lc h
    refine insertPair_noZero _ _ _ hacc ?_
    rw [show pc = if polarity = true then (1 : ℚ) else -1 from rfl]
    cases polarity <;> norm_num
  · intro acc polarity rest pc a b r hsb hsa ih hacc hl lc h
    rw [LinearComb.fromTermGo.eq_2, hsa, hsb] at h
    have hr : r ≠ 0 := by
      have := hl (Term.op Operator.mult (TermList.cons a (TermList.cons b TermList.nil)), polarity)
        (List.mem_cons_self _ _)
      rw [multArgOk] at this
      rw [hsa, hsb] at this
      simpa using this
    refine ih ?_ (fun p hp => hl p (List.mem_cons_of_mem _ hp)) lc h
    refine insertPair_noZero _ _ _ hacc ?_
    rw [show pc = if polarity = true then (1 : ℚ) else -1 from rfl]
    cases polarity <;> exact mul_ne_zero hr (by norm_num)
  · intro acc polarity rest pc a b r hsb hsa ih hacc hl lc h
    rw [LinearComb.fromTermGo.eq_2, hsa, hsb] at h
    have hr : r ≠ 0 := by
      have := hl (Term.op Operator.mult (TermList.cons a (TermList.cons b TermList.nil)), polarity)
        (List.mem_cons_self _ _)
      rw [multArgOk] at this
      rw [hsa, hsb] at this
      simpa using this
    refine ih ?_ (fun p hp => hl p (List.mem_cons_of_mem _ hp)) lc h
    refine insertPair_noZero _ _ _ hacc ?_
    rw [show pc = if polarity = true then (1 : ℚ) else -1 from rfl]
    cases polarity <;> exact mul_ne_zero hr (by norm_num)
  · intro acc polarity rest a b r1 r2 hsb hsa hacc hl lc h
    rw [LinearComb.fromTermGo.eq_2, hsa, hsb] at h
    exact RRes.noConfusion h
  · intro acc arg polarity rest hsa hnm hacc hl lc h
    rw [LinearComb.fromTermGo.eq_3 acc arg polarity rest hnm, hsa] at h
    exact RRes.noConfusion h
  · intro acc arg polarity rest pc r hsa hnm ih hacc hl lc h
    rw [LinearComb.fromTermGo.eq_3 acc arg polarity rest hnm, hsa] at h
    exact ih hacc (fun p hp => hl p (List.mem_cons_of_mem _ hp)) lc h
  · intro acc arg polarity rest pc hsa hnm ih hacc hl lc h
    rw [LinearComb.fromTermGo.eq_3 acc arg polarity rest hnm, hsa] at h
    refine ih ?_ (fun p hp => hl p (List.mem_cons_of_mem _ hp)) lc h
    refine insertPair_noZero _ _ _ hacc ?_
    rw [show pc = if polarity = true then (1 : ℚ) else -1 from rfl]
    cases polarity <;> norm_num

/-- **C3 (amended).** `from_term` produces no zero coefficient provided
every product summand with exactly one constant factor has that factor
nonzero; `add` and `sub` preserve the no-zero invariant, and `mul`
preserves it for every nonzero scalar.  (As stated the claim fails:
`from_term` on `(* 0 n)` and `mul` by the scalar 0 both produce zero
coefficients — see the counterexample.) -/
theorem linear_comb_no_zero_invariant :
    (∀ (t : Term) (l : List (Term × Bool)) (lc : LinearComb),
        flattenSum t = some l → (∀ p ∈ l, multArgOk p.1 = true) →
        LinearComb.fromTerm t = .ok lc → noZeroCoeffs lc.coeffs) ∧
    (∀ a b : LinearComb, noZeroCoeffs a.coeffs → noZeroCoeffs b.coeffs →
        noZeroCoeffs (a.add b).coeffs) ∧
    (∀ a b : LinearComb, noZeroCoeffs a.coeffs → noZeroCoeffs b.coeffs →
        noZeroCoeffs (a.sub b).coeffs) ∧
    (∀ (a : LinearComb) (s : ℚ), s ≠ 0 → noZeroCoeffs a.coeffs →
        noZeroCoeffs (a.mul s).coeffs) := by
  refine ⟨?_, linearComb_add_noZero, linearComb_sub_noZero, linearComb_mul_noZero⟩
  intro t l lc hf hgood h
  rw [LinearComb.fromTerm, hf] at h
  exact fromTermGo_noZero ⟨[], 0⟩ l (fun p hp => absurd hp (List.not_mem_nil p)) hgood lc h

theorem linear_comb_no_zero_invariant_witness :
    noZeroCoeffs (⟨[(varN, 1)], 0⟩ : LinearComb).coeffs :=
  linear_comb_no_zero_invariant.1 varN [(varN, true)] ⟨[(varN, 1)], 0⟩
    (by simp [flattenSum, varN])
    (by
      intro p hp
      rw [List.mem_singleton] at hp
      subst hp
      simp [multArgOk, varN])
    (by norm_num +decide [LinearComb.fromTerm, flattenSum, flattenSumArgs,
      LinearComb.fromTermGo, simpleOperationToRational, Term.tryAsRatio,
      LinearComb.insert, insertPair, varN])

/-- **C3 counterexample.** `from_term` on the term `(* 0 n)` maps `n` to
the coefficient 0 (a vacant entry receives the value unchanged, even when
it is zero), and `mul` by the scalar 0 turns the nonzero coefficient of
`n` into 0 without removing it.  Both falsify the claim as stated. -/
theorem linear_comb_zero_coeff_counterexample :
    LinearComb.fromTerm (.op .mult (.cons (intLit 0) (.cons varN .nil))) =
      .ok ⟨[(varN, 0)], 0⟩ ∧
    ¬ noZeroCoeffs [(varN, 0)] ∧
    (LinearComb.mul ⟨[(varN, 1)], 0⟩ 0).coeffs = [(varN, 0)] := by
  refine ⟨?_, ?_, ?_⟩
  · norm_num +decide [LinearComb.fromTerm, flattenSum, flattenSumArgs,
      LinearComb.fromTermGo, simpleOperationToRational, Term.tryAsRatio,
      LinearComb.insert, insertPair, varN, intLit]
  · intro hcontra
    exact hcontra (varN, 0) (List.mem_singleton.mpr rfl) rfl
  · norm_num [LinearComb.mul]

lemma sotr_no_fatal :
    ∀ t : Term, divSafe t = true → simpleOperationToRational t ≠ RRes.fatal := by
  refine simpleOperationToRational.induct
    (fun t => divSafe t = true → simpleOperationToRational t ≠ RRes.fatal)
    ?_ ?_ ?_ ?_ ?_ ?_ ?_ ?_ ?_ ?_ ?_ ?_ ?_ ?_ ?_ ?_ ?_
  · intro n d hsn ihn hsafe
    rw [divSafe.eq_1, hsn] at hsafe
    simp at hsafe
    exact absurd hsn (ihn hsafe)
  · intro n d hsn ihn hsafe
    rw [simpleOperationToRational.eq_1, hsn]
    simp
  · intro n d vn hsn hsd ihn ihd hsafe
    rw [divSafe.eq_1, hsn] at hsafe
    simp at hsafe
    exact absurd hsd (ihd hsafe.2.1)
  · intro n d vn hsn hsd ihn ihd hsafe
    rw [simpleOperationToRational.eq_1, hsn, hsd]
    simp
  · intro n d vn hsn hsd ihn ihd hsafe
    rw [divSafe.eq_1, hsn] at hsafe
    simp at hsafe
    exact absurd hsd hsafe.2.2
  · intro n d vn hsn vd hsd hvd ihn ihd hsafe
    rw [simpleOperationToRational.eq_1, hsn, hsd]
    simp [hvd]
  · intro n d hsn ihn hsafe
    rw [divSafe.eq_2, hsn] at hsafe
    simp at hsafe
    exact absurd hsn (ihn hsafe)
  · intro n d hsn ihn hsafe
    rw [simpleOperationToRational.eq_2, hsn]
    simp
  · intro n d vn hsn hsd ihn ihd hsafe
    rw [divSafe.eq_2, hsn] at hsafe
    simp at hsafe
    exact absurd hsd (ihd hsafe.2.1)
  · intro n d vn hsn hsd ihn ihd hsafe
    rw [simpleOperationToRational.eq_2, hsn, hsd]
    simp
  · intro n d vn hsn hsd ihn ihd hsafe
    rw [divSafe.eq_2, hsn] at hsafe
    simp at hsafe
    exact absurd hsd hsafe.2.2
  · intro n d vn hsn vd hsd hvd ihn ihd hsafe
    rw [simpleOperationToRational.eq_2, hsn, hsd]
    simp [hvd]
  · intro t hst iht hsafe
    rw [divSafe.eq_3] at hsafe
    exact absurd hst (iht hsafe)
  · intro t hst iht hsafe
    rw [simpleOperationToRational.eq_3, hst]
    simp
  · intro t vd hst iht hsafe
    rw [simpleOperationToRational.eq_3, hst]
    simp
  · intro t h1 h2 h3 r htr hsafe
    rw [simpleOperationToRational.eq_4 t h1 h2 h3, htr]
    simp
  · intro t h1 h2 h3 htr hsafe
    rw [simpleOperationToRational.eq_4 t h1 h2 h3, htr]
    simp

lemma sotr_fragment_value :
    ∀ (t : Term) (q : ℚ), fragDenotes t = some q →
      simpleOperationToRational t = RRes.ok q := by
  refine fragDenotes.induct
    (fun t => ∀ q : ℚ, fragDenotes t = some q → simpleOperationToRational t = RRes.ok q)
    ?_ ?_ ?_ ?_
  · intro n d ihn ihd q h
    rw [fragDenotes.eq_1] at h
    cases hn : fragDenotes n with
    | none => rw [hn] at h; exact Option.noConfusion h
    | some vn =>
      cases hd : fragDenotes d with
      | none => rw [hn, hd] at h; exact Option.noConfusion h
      | some vd =>
        rw [hn, hd] at h
        have h' : (if vd = 0 then (none : Option ℚ) else some (vn / vd)) = some q := h
        by_cases hz : vd = 0
        · rw [if_pos hz] at h'
          exact Option.noConfusion h'
        · rw [if_neg hz] at h'
          obtain rfl : vn / vd = q := Option.some.inj h'
          rw [simpleOperationToRational.eq_1, ihn vn hn, ihd vd hd]
          show (if vd = 0 then RRes.fatal else RRes.ok (vn / vd)) = RRes.ok (vn / vd)
          rw [if_neg hz]
  · intro n d ihn ihd q h
    rw [fragDenotes.eq_2] at h
    cases hn : fragDenotes n with
    | none => rw [hn] at h; exact Option.noConfusion h
    | some vn =>
      cases hd : fragDenotes d with
      | none => rw [hn, hd] at h; exact Option.noConfusion h
      | some vd =>
        rw [hn, hd] at h
        have h' : (if vd = 0 then (none : Option ℚ) else some (vn / vd)) = some q := h
        by_cases hz : vd = 0
        · rw [if_pos hz] at h'
          exact Option.noConfusion h'
        · rw [if_neg hz] at h'
          obtain rfl : vn / vd = q := Option.some.inj h'
          rw [simpleOperationToRational.eq_2, ihn vn hn, ihd vd hd]
          show (if vd = 0 then RRes.fatal else RRes.ok (vn / vd)) = RRes.ok (vn / vd)
          rw [if_neg hz]
  · intro t iht q h
    rw [fragDenotes.eq_3] at h
    cases ht : fragDenotes t with
    | none => rw [ht] at h; exact Option.noConfusion h
    | some v =>
      rw [ht] at h
      obtain rfl : -v = q := Option.some.inj h
      rw [simpleOperationToRational.eq_3, iht v ht]
  · intro t h1 h2 h3 q h
    rw [fragDenotes.eq_4 t h1 h2 h3] at h
    rw [simpleOperationToRational.eq_4 t h1 h2 h3, h]

lemma sotr_nonfragment_retNone :
    ∀ t : Term, isFragment t = false → divSafe t = true →
      simpleOperationToRational t = RRes.retNone := by
  refine simpleOperationToRational.induct
    (fun t => isFragment t = false → divSafe t = true →
      simpleOperationToRational t = RRes.retNone)
    ?_ ?_ ?_ ?_ ?_ ?_ ?_ ?_ ?_ ?_ ?_ ?_ ?_ ?_ ?_ ?_ ?_
  · intro n d hsn ihn hfrag hsafe
    rw [divSafe.eq_1, hsn] at hsafe
    simp at hsafe
    exact absurd hsn (sotr_no_fatal n hsafe)
  · intro n d hsn ihn hfrag hsafe
    simp [simpleOperationToRational.eq_1, hsn]
  · intro n d vn hsn hsd ihn ihd hfrag hsafe
    rw [divSafe.eq_1, hsn] at hsafe
    simp at hsafe
    exact absurd hsd (sotr_no_fatal d hsafe.2.1)
  · intro n d vn hsn hsd ihn ihd hfrag hsafe
    simp [simpleOperationToRational.eq_1, hsn, hsd]
  · intro n d vn hsn hsd ihn ihd hfrag hsafe
    rw [divSafe.eq_1, hsn] at hsafe
    simp at hsafe
    exact absurd hsd hsafe.2.2
  · intro n d vn hsn vd hsd hvd ihn ihd hfrag hsafe
    rw [isFragment.eq_1] at hfrag
    rw [divSafe.eq_1, hsn] at hsafe
    simp at hsafe hfrag
    by_cases hf : isFragment n = true
    · rw [ihd (hfrag hf) hsafe.2.1] at hsd
      exact RRes.noConfusion hsd
    · rw [ihn (by simpa using hf) hsafe.1] at hsn
      exact RRes.noConfusion hsn
  · intro n d hsn ihn hfrag hsafe
    rw [divSafe.eq_2, hsn] at hsafe
    simp at hsafe
    exact absurd hsn (sotr_no_fatal n hsafe)
  · intro n d hsn ihn hfrag hsafe
    simp [simpleOperationToRational.eq_2, hsn]
  · intro n d vn hsn hsd ihn ihd hfrag hsafe
    rw [divSafe.eq_2, hsn] at hsafe
    simp at hsafe
    exact absurd hsd (sotr_no_fatal d hsafe.2.1)
  · intro n d vn hsn hsd ihn ihd hfrag hsafe
    simp [simpleOperationToRational.eq_2, hsn, hsd]
  · intro n d vn hsn hsd ihn ihd hfrag hsafe
    rw [divSafe.eq_2, hsn] at hsafe
    simp at hsafe
    exact absurd hsd hsafe.2.2
  · intro n d vn hsn vd hsd hvd ihn ihd hfrag hsafe
    rw [isFragment.eq_2] at hfrag
    rw [divSafe.eq_2, hsn] at hsafe
    simp at hsafe hfrag
    by_cases hf : isFragment n = true
    · rw [ihd (hfrag hf) hsafe.2.1] at hsd
      exact RRes.noConfusion hsd
    · rw [ihn (by simpa using hf) hsafe.1] at hsn
      exact RRes.noConfusion hsn
  · intro t hst iht hfrag hsafe
    rw [divSafe.eq_3] at hsafe
    exact absurd hst (sotr_no_fatal t hsafe)
  · intro t hst iht hfrag hsafe
    simp [simpleOperationToRational.eq_3, hst]
  · intro t v hst iht hfrag hsafe
    rw [isFragment.eq_3] at hfrag
    rw [divSafe.eq_3] at hsafe
    rw [iht hfrag hsafe] at hst
    exact RRes.noConfusion hst
  · intro t h1 h2 h3 r htr hfrag hsafe
    rw [isFragment.eq_4 t h1 h2 h3, htr] at hfrag
    exact Bool.noConfusion hfrag
  · intro t h1 h2 h3 htr hfrag hsafe
    simp [simpleOperationToRational.eq_4 t h1 h2 h3, htr]

/-- **C4 (amended).** `simple_operation_to_rational` returns the denoted
rational value on every term built, nested arbitrarily, from `/`, `div`,
unary `-` and integer or rational literals in which no division has a
zero denominator (that is exactly where `fragDenotes` is defined); it
returns `None` on every term outside that fragment, provided no division
it evaluates has a zero denominator (`divSafe`); and under that proviso
it never fails in any other way.  (As stated the claim fails: on
`(/ 1 0)` or `(div 1 0)` the `BigRational` division panics — see the
counterexample.) -/
theorem sotr_total_amended :
    (∀ (t : Term) (q : ℚ), fragDenotes t = some q →
        simpleOperationToRational t = RRes.ok q) ∧
    (∀ t : Term, isFragment t = false → divSafe t = true →
        simpleOperationToRational t = RRes.retNone) ∧
    (∀ t : Term, divSafe t = true → simpleOperationToRational t ≠ RRes.fatal) :=
  ⟨sotr_fragment_value, sotr_nonfragment_retNone, sotr_no_fatal⟩

theorem sotr_total_amended_witness :
    simpleOperationToRational
      (Term.op .realDiv (.cons (Term.op .sub (.cons (intLit 1) .nil))
        (.cons (intLit 2) .nil))) = RRes.ok (-(1 : ℚ) / 2) :=
  sotr_total_amended.1
    (Term.op .realDiv (.cons (Term.op .sub (.cons (intLit 1) .nil))
      (.cons (intLit 2) .nil))) (-(1 : ℚ) / 2)
    (by norm_num [fragDenotes, Term.tryAsRatio, intLit])

/-- **C4 counterexample.** On `(/ 1 0)` and `(div 1 0)` — terms built only
from division and integer literals — the function panics (`BigRational`
division by zero) instead of returning a value or `None`. -/
theorem sotr_div_by_zero_counterexample :
    simpleOperationToRational (.op .realDiv (.cons (intLit 1) (.cons (intLit 0) .nil))) =
      RRes.fatal ∧
    simpleOperationToRational (.op .intDiv (.cons (intLit 1) (.cons (intLit 0) .nil))) =
      RRes.fatal := by
  constructor <;>
    norm_num +decide [simpleOperationToRational, Term.tryAsRatio, intLit]

lemma exceptBind_ok {ε α β : Type} (a : α) (f : α → Except ε β) :
    (Except.ok a >>= f) = f a := rfl

lemma exceptBind_error {ε α β : Type} (e : ε) (f : α → Except ε β) :
    ((Except.error e : Except ε α) >>= f) = Except.error e := rfl

/-- **C7.** After parsing `(set-logic L)` the `interpret_integers_as_reals`
flag is the result of the logic match, which is true iff `L` is one of
LRA, QF_LRA, QF_NRA, QF_RDL, QF_UFLRA, QF_UFNRA, UFLRA (unknown logics
default to false); and a numeral token parses to a rational terminal when
the flag is set and to an integer terminal otherwise. -/
theorem set_logic_flag_and_numeral_parsing :
    (∀ (fuel : ℕ) (premises : List Term) (st : PState) (logic : String)
       (rest : List Token),
       st.tokens = Token.openParen :: Token.symbol "set-logic" ::
         Token.symbol logic :: Token.closeParen :: rest →
       parseProblemLoop (fuel + 1) premises st =
         parseProblemLoop fuel premises
           { st with tokens := rest, interpretIntegersAsReals := logicFlag logic }) ∧
    (∀ logic : String,
       logicFlag logic = true ↔
         logic ∈ (["LRA", "QF_LRA", "QF_NRA", "QF_RDL", "QF_UFLRA", "QF_UFNRA",
           "UFLRA"] : List String)) ∧
    (∀ (fuel : ℕ) (st : PState) (n : ℕ) (rest : List Token),
       st.tokens = Token.numeral n :: rest →
       parseTerm (fuel + 1) st =
         .ok ((if st.interpretIntegersAsReals then Term.terminal (Terminal.real (n : ℚ))
               else Term.terminal (Terminal.int (n : ℤ))),
              { st with tokens := rest })) := by
  refine ⟨?_, ?_, ?_⟩
  · intro fuel premises st logic rest htoks
    rw [parseProblemLoop]
    simp [PState.current, PState.nextTok, htoks, expectToken, expectSymbol,
      exceptBind_ok]
  · intro logic
    unfold logicFlag
    split_ifs with h1 h2 <;> simp_all
  · intro fuel st n rest htoks
    rw [parseTerm]
    rw [show st.nextTok = (Token.numeral n, { st with tokens := rest }) by
      simp [PState.nextTok, PState.current, htoks]]
    by_cases hflag : st.interpretIntegersAsReals = true <;> simp [hflag]

theorem set_logic_flag_and_numeral_parsing_witness :
    parseProblemLoop 1 []
        (initPState [Token.openParen, Token.symbol "set-logic",
          Token.symbol "QF_LRA", Token.closeParen]) =
      parseProblemLoop 0 []
        { initPState [Token.openParen, Token.symbol "set-logic",
            Token.symbol "QF_LRA", Token.closeParen] with
          tokens := ([] : List Token),
          interpretIntegersAsReals := logicFlag "QF_LRA" } :=
  set_logic_flag_and_numeral_parsing.1 0 []
    (initPState [Token.openParen, Token.symbol "set-logic",
      Token.symbol "QF_LRA", Token.closeParen]) "QF_LRA" [] rfl

/-- **C5 (amended).** The `assert` branch of `parse_problem` performs no
sort check: whatever the sort of the parsed term `t`, the command is
accepted and `t` is inserted into the premises set. -/
theorem parse_problem_assert_no_sort_check :
    (∀ (fuel : ℕ) (premises : List Term) (st : PState) (rest rest2 : List Token)
       (t : Term) (stMid : PState),
       st.tokens = Token.openParen :: Token.reservedWord Reserved.assert :: rest →
       parseTerm fuel { st with tokens := rest } = .ok (t, stMid) →
       stMid.tokens = Token.closeParen :: rest2 →
       parseProblemLoop (fuel + 1) premises st =
         parseProblemLoop fuel (insertPremise t premises) { stMid with tokens := rest2 }) ∧
    (∀ (t : Term) (premises : List Term), t ∈ insertPremise t premises) := by
  constructor
  · intro fuel premises st rest rest2 t stMid htoks hterm hclose
    rw [parseProblemLoop]
    simp only [PState.current, PState.nextTok, htoks, expectToken,
      List.headD_cons, List.tail_cons, ite_true, ite_false, if_pos, reduceIte,
      exceptBind_ok]
    rw [hterm]
    simp only [exceptBind_ok, expectToken, PState.nextTok, PState.current,
      hclose, List.headD_cons, List.tail_cons, ite_true, reduceIte,
      exceptBind_ok]
    rw [if_neg (by simp)]
  · intro t premises
    unfold insertPremise
    by_cases ht : t ∈ premises
    · rw [if_pos ht]
      exact ht
    · rw [if_neg ht]
      exact List.mem_append_right _ (List.mem_singleton.mpr rfl)

/-- **C5 counterexample.** `(assert 0)` — a term of sort Int, not Bool —
parses without error and the term is inserted into the premises set,
refuting the claimed sort check. -/
theorem parse_problem_no_bool_check_counterexample :
    parseProblem 2 (initPState c5toks) =
      .ok ([intLit 0], { initPState c5toks with tokens := [] }) ∧
    Term.sortOf (intLit 0) ≠ SmtSort.bool := by
  constructor
  · rfl
  · simp [Term.sortOf, intLit]

theorem parse_problem_assert_no_sort_check_witness :
    parseProblemLoop 2 [] (initPState c5toks) =
      parseProblemLoop 1 (insertPremise (intLit 0) [])
        { initPState c5toks with tokens := ([] : List Token) } :=
  parse_problem_assert_no_sort_check.1 1 [] (initPState c5toks)
    [Token.numeral 0, Token.closeParen] [] (intLit 0)
    { initPState c5toks with tokens := [Token.closeParen] }
    rfl rfl rfl

/-- **C6.** When the command whose index equals the top of the end-step
stack has been parsed, the parser closes the subproof: it pops the
command frame, the sorts scope, the step-indices scope and the anchor
arguments, and pushes a `Subproof` onto the enclosing frame — provided
the closed frame's last command (the command just pushed) is a `Step`;
otherwise it fails with `LastSubproofStepIsNotStep`, as the concrete
proof `(anchor :step t1) (assume t1 true)` does. -/
theorem subproof_close_and_last_step_check :
    (∀ (index : String) (cmd : ProofCommand) (top parent : List ProofCommand)
       (prest : List (List ProofCommand)) (erest : List String)
       (aArgs : List (String × Term)) (vArgs : List (String × SmtSort))
       (arest : List (List (String × Term) × List (String × SmtSort)))
       (st : PState),
       st.state.stepIndices.get index = none →
       ((∀ s : ProofStep, cmd = ProofCommand.step s →
           handleParsedCommand index cmd
             ⟨top :: parent :: prest, index :: erest, (aArgs, vArgs) :: arest⟩ st =
             .ok (⟨(parent ++ [ProofCommand.subproof (top ++ [cmd]) aArgs vArgs]) :: prest,
                   erest, arest⟩,
                  (st.popSorts.popStepScope).insertStepIndex index
                    ((parent ++ [ProofCommand.subproof (top ++ [cmd]) aArgs vArgs]).length - 1))) ∧
        ((∀ s : ProofStep, cmd ≠ ProofCommand.step s) →
           handleParsedCommand index cmd
             ⟨top :: parent :: prest, index :: erest, (aArgs, vArgs) :: arest⟩ st =
             .error (.lastSubproofStepIsNotStep index)))) ∧
    parseProof 10 (initPState c6toks) = .error (.lastSubproofStepIsNotStep "t1") := by
  constructor
  · intro index cmd top parent prest erest aArgs vArgs arest st hidx
    constructor
    · intro s hs
      subst hs
      simp [handleParsedCommand, hidx, List.getLast?_concat]
    · intro hns
      cases cmd with
      | step s => exact absurd rfl (hns s)
      | assume i t =>
        simp [handleParsedCommand, hidx, List.getLast?_concat]
      | subproof c a v =>
        simp [handleParsedCommand, hidx, List.getLast?_concat]
  · rfl

theorem subproof_close_and_last_step_check_witness :
    handleParsedCommand "t1"
      (ProofCommand.step ⟨"t1", [], "hole", [], [], []⟩)
      ⟨[[], []], ["t1"], [([], [])]⟩ (initPState []) =
      .ok (⟨[[] ++ [ProofCommand.subproof
              ([] ++ [ProofCommand.step ⟨"t1", [], "hole", [], [], []⟩]) [] []]], [], []⟩,
           ((initPState []).popSorts.popStepScope).insertStepIndex "t1"
             (([] ++ [ProofCommand.subproof
               ([] ++ [ProofCommand.step ⟨"t1", [], "hole", [], [], []⟩]) [] []]).length - 1)) :=
  (subproof_close_and_last_step_check.1 "t1"
    (ProofCommand.step ⟨"t1", [], "hole", [], [], []⟩) [] [] [] [] [] [] []
    (initPState []) rfl).1 ⟨"t1", [], "hole", [], [], []⟩ rfl
